import Mathlib

/-!
Verification of the arachne batching/retrieval client.

This file gives a shallow embedding, in Lean, of the parts of the C++
sources that the checked properties talk about:

* `src/src/arachne.cpp` / `src/include/arachne.hpp`: identifier parsing
  (`identify`, `parse_id`), rendering (`normalize`, `entity_root`), the
  batch-manager state (groups, per-kind main/extra queues, candidate
  counters) and its operations (`add_entity`, `touch_entity`, `flush`,
  `queue_size`).
* `src/src/pheidippides.cpp`: the batch courier `fetch_json` (identifier
  filtering, chunking, per-chunk calls) with the network/JSON layer
  abstracted to an oracle of per-call outcomes.
* `src/src/http_client.cpp`: the retrying GET loop (`get`), the attempt
  classification (`status_good`, `status_retry`), the jittered backoff
  (`next_delay`) and the server retry hint (`apply_server_retry_hint`).

Machine integers are modelled as `Nat`/`Int` with the explicit 32-bit
bounds that `std::stoi` enforces; C++ exceptions are modelled as
`Except`/`Option` failure values; the random jitter draws, the random
group-name generator and the network responses are oracle parameters.
-/

namespace Arachne

/-! ## Characters and decimal numerals

`std::stoi` (C locale) recognises exactly the digits `'0'..'9'`, skips
the six whitespace characters, and accepts an optional sign.
`std::to_string` renders a canonical decimal numeral.  `natToStr` is the
model of `std::to_string` on non-negative values; `digitsVal` is the
numeric value of a digit string. -/

def digitChars : List Char := ['0', '1', '2', '3', '4', '5', '6', '7', '8', '9']

def isDig (c : Char) : Bool := decide (c ∈ digitChars)

def isCppSpace (c : Char) : Bool :=
  decide (c ∈ [' ', '\t', '\n', '\x0b', '\x0c', '\r'])

def charVal (c : Char) : Nat :=
  match c with
  | '0' => 0 | '1' => 1 | '2' => 2 | '3' => 3 | '4' => 4
  | '5' => 5 | '6' => 6 | '7' => 7 | '8' => 8 | '9' => 9
  | _ => 0

def digitChar (n : Nat) : Char := digitChars.getD n '0'

/-- Fuel-driven helper for `natToStr` (structural recursion so that the
kernel can evaluate it; the fuel is always sufficient). -/
def natToStrF : Nat → Nat → List Char
  | 0, _ => []
  | fuel + 1, n =>
    if n < 10 then [digitChar n]
    else natToStrF fuel (n / 10) ++ [digitChar (n % 10)]

/-- Model of `std::to_string` for a non-negative value: canonical decimal
rendering, most significant digit first. -/
def natToStr (n : Nat) : List Char := natToStrF (n + 1) n


/-- Numeric value of a digit string (most significant digit first). -/
def digitsVal (ds : List Char) : Nat :=
  ds.foldl (fun a c => 10 * a + charVal c) 0


instance instDecidableEqExcept {e a : Type} [DecidableEq e] [DecidableEq a] :
    DecidableEq (Except e a) := fun x y =>
  match x, y with
  | .ok u, .ok v =>
    if h : u = v then .isTrue (by rw [h]) else .isFalse (fun hh => h (Except.ok.inj hh))
  | .error u, .error v =>
    if h : u = v then .isTrue (by rw [h]) else .isFalse (fun hh => h (Except.error.inj hh))
  | .ok _, .error _ => .isFalse (fun hh => Except.noConfusion hh)
  | .error _, .ok _ => .isFalse (fun hh => Except.noConfusion hh)

/-! ## `std::stoi` and `arachne::parse_id`

`stoiE` models `std::stoi(s, &len)` on a character list: skip C-locale
whitespace, accept one optional sign, read the maximal run of decimal
digits; no digits is `std::invalid_argument` and a value outside the
32-bit signed range is `std::out_of_range` (both modelled as `.error`).
On success it returns the value and the number of characters consumed.

`parse_id` is `arachne::parse_id` (src/src/arachne.cpp:149-162): the
`catch (...)` turns any `stoiE` failure into `none`; a negative value, an
empty parse, or a parse whose `std::to_string` round-trip has a different
length (leading zeros, whitespace, signs) is also rejected; on success the
position is advanced past the numeral. -/

def stoiE (r : List Char) : Except Unit (Int × Nat) :=
  let r1 := r.dropWhile isCppSpace
  let ws := r.length - r1.length
  let neg : Bool := r1.head? = some '-'
  let hasSign : Bool := r1.head? = some '-' ∨ r1.head? = some '+'
  let signLen := if hasSign then 1 else 0
  let t := if hasSign then r1.tail else r1
  let ds := t.takeWhile isDig
  if ds.isEmpty then .error ()
  else
    let m := digitsVal ds
    if neg then
      if m ≤ 2147483648 then .ok (-(m : Int), ws + signLen + ds.length)
      else .error ()
    else
      if m ≤ 2147483647 then .ok ((m : Int), ws + signLen + ds.length)
      else .error ()

def parse_id (entity : List Char) (pos : Nat) : Option (Int × Nat) :=
  match stoiE (entity.drop pos) with
  | .error _ => none
  | .ok (v, len) =>
    if v < 0 ∨ len = 0 ∨ (natToStr v.toNat).length ≠ len then none
    else some (v, pos + len)

/-! ## Entity kinds and `arachne::identify`

`entity_kind` is `corespace::entity_kind` (src/include/utils.hpp:47-57)
with its enumerator order; `kindIndex` models `static_cast<size_t>` and
`kindOfNat` the reverse cast used in `identify`.  `prefixes` is the
constant `"QPLME"` of src/src/arachne.cpp:29. -/

inductive entity_kind where
  | item | property | lexeme | mediainfo | entity_schema
  | form | sense | any | unknown
  deriving DecidableEq, Repr

def kindIndex : entity_kind → Nat
  | .item => 0 | .property => 1 | .lexeme => 2 | .mediainfo => 3
  | .entity_schema => 4 | .form => 5 | .sense => 6 | .any => 7 | .unknown => 8

def kindOfNat : Nat → entity_kind
  | 0 => .item | 1 => .property | 2 => .lexeme | 3 => .mediainfo
  | 4 => .entity_schema | 5 => .form | 6 => .sense | 7 => .any | _ => .unknown

def prefixes : List Char := ['Q', 'P', 'L', 'M', 'E']

/-- `prefixes.find(c)`: index of `c` in `"QPLME"`, `none` for npos. -/
def prefixFind (c : Char) : Option Nat :=
  if c = 'Q' then some 0
  else if c = 'P' then some 1
  else if c = 'L' then some 2
  else if c = 'M' then some 3
  else if c = 'E' then some 4
  else none

/-- True when the list does not start with a decimal digit (so a maximal
digit run ends exactly there). -/
def noDigitHead : List Char → Bool
  | [] => true
  | c :: _ => !(isDig c)

/-- `arachne::identify` (src/src/arachne.cpp:122-147) on a character
list.  The position updates of the C++ (`pos++` twice around the `'-'`
and tag reads, then `parse_id` advancing `pos`) are made explicit. -/
def identifyL (entity : List Char) : entity_kind :=
  if entity.length < 2 then .unknown
  else
    match entity.head? with
    | none => .unknown
    | some c =>
      match prefixFind c with
      | none => .unknown
      | some kind =>
        match parse_id entity 1 with
        | none => .unknown
        | some (_, pos) =>
          if pos = entity.length then kindOfNat kind
          else if kind ≠ kindIndex .lexeme ∨ entity.length ≤ pos ∨
              entity.get? pos ≠ some '-' ∨ entity.length ≤ pos + 1 then .unknown
          else
            match entity.get? (pos + 1) with
            | none => .unknown
            | some tag =>
              if tag ≠ 'F' ∧ tag ≠ 'S' then .unknown
              else
                match parse_id entity (pos + 2) with
                | none => .unknown
                | some (_, pos2) =>
                  if pos2 ≠ entity.length then .unknown
                  else if tag = 'F' then .form else .sense

def identify (s : String) : entity_kind := identifyL s.data

/-- `arachne::normalize` (src/src/arachne.cpp:164-182).  A negative id or
an `any`/`unknown` kind throws `std::invalid_argument`; numeric form and
sense ids are coerced to the lexeme prefix. -/
def normalize (id : Int) (kind : entity_kind) : Except Unit String :=
  if id < 0 then .error ()
  else if kind = .any ∨ kind = .unknown then .error ()
  else
    let idx := kindIndex kind
    let idx := if kindIndex .form ≤ idx then kindIndex .lexeme else idx
    .ok (String.mk (prefixes.getD idx ' ' :: natToStr id.toNat))

/-- `arachne::entity_root` (src/src/arachne.cpp:74-97).  Throws on
`any`/`unknown`; for forms and senses re-parses the leading lexeme
numeral and returns `"L" + std::to_string(val)`; otherwise the id is
returned unchanged. -/
def entity_root (id : String) : Except Unit String :=
  let kind := identify id
  if kind = .any ∨ kind = .unknown then .error ()
  else if kind = .form ∨ kind = .sense then
    if id.data.length < 2 ∨ id.data.head? ≠ some 'L' then .error ()
    else
      match parse_id id.data 1 with
      | none => .error ()
      | some (v, _) => .ok (String.mk ('L' :: natToStr v.toNat))
  else .ok id


/-! ## Container models

`std::unordered_set<std::string>` is modelled as a duplicate-free list in
insertion order (`setInsert` inserts only when absent, as `insert` on a
set does); `std::unordered_map` as an association list.  Iteration order
of the hash containers is irrelevant to every checked property. -/

abbrev StrSet := List String

def setInsert (s : StrSet) (x : String) : StrSet :=
  if x ∈ s then s else s ++ [x]

abbrev SMap (a : Type) := List (String × a)

def mapFind? {a : Type} : SMap a → String → Option a
  | [], _ => none
  | (k', v) :: rest, k => if k' = k then some v else mapFind? rest k

def mapGetD {a : Type} (m : SMap a) (k : String) (d : a) : a :=
  (mapFind? m k).getD d

def mapSet {a : Type} : SMap a → String → a → SMap a
  | [], k, v => [(k, v)]
  | (k', v') :: rest, k, v =>
    if k' = k then (k, v) :: rest else (k', v') :: mapSet rest k v

def mapContains {a : Type} (m : SMap a) (k : String) : Bool :=
  (mapFind? m k).isSome

/-! ## The batch manager state (`class arachne`, src/include/arachne.hpp)

Fields mirror src/include/arachne.hpp:267-294: per-kind main and extra
batch queues (`std::array<std::unordered_set<std::string>,
batched_kind_count>` with `batched_kind_count = 7`), the named groups,
the candidate touch counters and the current group name.  `rng_names`
is the oracle for `corespace::random_hex(8)` outputs used by anonymous
group naming.  The thresholds are the constants of arachne.hpp:283-286. -/

def batched_kind_count : Nat := 7

def batch_threshold : Nat := 50

def candidates_threshold : Int := 50

structure arachneState where
  main_batches : List StrSet
  extra_batches : List StrSet
  groups : SMap StrSet
  candidates : SMap Int
  current_group : String
  rng_names : List String
  deriving DecidableEq, Repr

def initState (names : List String) : arachneState :=
  { main_batches := List.replicate batched_kind_count []
    extra_batches := List.replicate batched_kind_count []
    groups := []
    candidates := []
    current_group := ""
    rng_names := names }

/-- `arachne::new_group` (src/src/arachne.cpp:31-40).  An empty name runs
the `do { name = "g_" + random_hex(8); } while (groups.contains(name))`
loop, modelled over the `rng_names` oracle (`.error` stands for the loop
never finding a fresh name, which cannot terminate in the C++ either);
then `try_emplace` inserts an empty group if absent and the found entry
becomes current.  Returns whether a new group was inserted. -/
def freshLoop : List String → SMap StrSet → Option (String × List String)
  | [], _ => none
  | n :: rest, groups =>
    let name := "g_" ++ n
    if mapContains groups name then freshLoop rest groups
    else some (name, rest)

def new_group (name : String) (s : arachneState) :
    Except Unit (Bool × arachneState) :=
  if name = "" then
    match freshLoop s.rng_names s.groups with
    | none => .error ()
    | some (fresh, restNames) =>
      .ok (true, { s with groups := s.groups ++ [(fresh, [])]
                          current_group := fresh
                          rng_names := restNames })
  else
    if mapContains s.groups name then
      .ok (false, { s with current_group := name })
    else
      .ok (true, { s with groups := s.groups ++ [(name, [])]
                          current_group := name })

/-- `arachne::select_group` (src/src/arachne.cpp:184-192). -/
def select_group (name : String) (s : arachneState) :
    Except Unit arachneState :=
  if name = "" then
    if s.current_group = "" then (new_group "" s).map (fun p => p.2)
    else .ok s
  else (new_group name s).map (fun p => p.2)

/-- `arachne::ask_update` (src/src/arachne.cpp:194-199): placeholder that
always answers `false`. -/
def ask_update (_id : String) (_kind : entity_kind) (_age : Int) : Bool :=
  false

/-- The stubbed `ariadne.entity_status(id)` pair of
src/src/arachne.cpp:206: always `(exist = false, last = -1)`. -/
def entity_status_stub (_id : String) : Bool × Int := (false, -1)

/-- `arachne::enqueue` (src/src/arachne.cpp:201-222).  Because the stub
always reports `exist = false`, the first `if (!exist || last < 0)`
returns `true`; the staleness/`ask_update` branch below it is dead code
(it would need a clock) and is therefore elided behind the stub. -/
def enqueue (id : String) (_kind : entity_kind) (_interactive : Bool) :
    Bool :=
  let st := entity_status_stub id
  if !st.1 || st.2 < 0 then true
  else false

/-- The `ui == corespace::interface::command_line` argument of the
`enqueue` call in `add_entity` (src/src/arachne.cpp:243); its value never
matters because `enqueue` returns at its first branch. -/
def ui_command_line : Bool := true

/-! ## The batch courier (`pheidippides::fetch_json`,
src/src/pheidippides.cpp:43-94)

The network/JSON layer below `wbgetentities_batch` (parameter building,
`get_with_retries`, `nlohmann::json::parse`, and the `entities` merge) is
abstracted to a `NetOracle` giving the outcome of the i-th issued call;
no checked property inspects response payloads, only whether a call
fails.  The identifier filtering, chunking and error control flow are
embedded exactly. -/

abbrev NetOracle := Nat → Except Unit Unit

/-- The filtering loop of `fetch_json` (src/src/pheidippides.cpp:55-68):
an identifier that fails `identify` throws `std::invalid_argument`; one
whose detected kind differs from a concrete requested kind is skipped;
the rest are kept in order. -/
def fetchFilter : List String → entity_kind → Except Unit (List String)
  | [], _ => .ok []
  | id :: rest, kind =>
    let detected := identify id
    if detected = .unknown then .error ()
    else if kind ≠ .any ∧ detected ≠ kind then fetchFilter rest kind
    else
      match fetchFilter rest kind with
      | .error u => .error u
      | .ok ids => .ok (id :: ids)

/-- `ids | std::views::chunk(opt.batch_threshold)` (fuel-driven so the
kernel can evaluate it; the fuel is always sufficient). -/
def chunksOfF : Nat → Nat → List String → List (List String)
  | 0, _, _ => []
  | _, _, [] => []
  | fuel + 1, n, l => l.take n :: chunksOfF fuel n (l.drop n)

def chunksOf (n : Nat) (l : List String) : List (List String) :=
  chunksOfF l.length n l

/-- The chunk loop of `fetch_json` (src/src/pheidippides.cpp:77-91): an
empty chunk is skipped, every other chunk issues one
`wbgetentities_batch` call whose outcome the oracle supplies; a thrown
error propagates, otherwise the responses are merged (abstracted). -/
def runChunks : List (List String) → NetOracle → Nat → Except Unit Unit
  | [], _, _ => .ok ()
  | c :: rest, net, i =>
    if c.length = 0 then runChunks rest net i
    else
      match net i with
      | .error u => .error u
      | .ok _ => runChunks rest net (i + 1)

/-- `pheidippides::fetch_json` (src/src/pheidippides.cpp:43-94): empty
batch short-circuits; kinds other than item/property/any throw
`std::invalid_argument`; then filter, chunk, and issue the calls. -/
def fetch_json (batch : StrSet) (kind : entity_kind) (net : NetOracle) :
    Except Unit Unit :=
  if batch.isEmpty then .ok ()
  else if kind ≠ .item ∧ kind ≠ .property ∧ kind ≠ .any then .error ()
  else
    match fetchFilter batch kind with
    | .error u => .error u
    | .ok ids =>
      if ids.isEmpty then .ok ()
      else runChunks (chunksOf batch_threshold ids) net 0

/-! ## Batch manager operations (src/src/arachne.cpp) -/

/-- `arachne::flush` (src/src/arachne.cpp:99-105).  `static_cast<size_t>
(kind)` indexes the 7-element `main_batches` array, so `kind = any`
(index 7) and `kind = unknown` (index 8) are out-of-bounds accesses
(undefined behaviour, modelled as `.error`).  The batch is handed to
`fetch_json` (which never modifies it: the courier only reads the set)
and the return value compares the size before the call with the size
after it. -/
def flush (kind : entity_kind) (s : arachneState) (net : NetOracle) :
    Except Unit (Bool × arachneState) :=
  match s.main_batches.get? (kindIndex kind) with
  | none => .error ()
  | some batch =>
    let size := batch.length
    match fetch_json batch kind net with
    | .error u => .error u
    | .ok _ => .ok (decide (size > batch.length), s)

/-- `arachne::queue_size` (src/src/arachne.cpp:107-120). -/
def queue_size (kind : entity_kind) (s : arachneState) : Int :=
  if kind = .any then
    ((s.main_batches.map List.length).sum : Nat)
  else
    let idx := kindIndex kind
    if s.main_batches.length ≤ idx then 0
    else (((s.main_batches.get? idx).getD []).length : Nat)

/-- `arachne::touch_entity` (src/src/arachne.cpp:224-233).
`candidates[id]++` default-inserts and increments unconditionally; at or
above the threshold the canonical root is (re-)inserted into the extra
queue and the call returns `true`.  The function is `noexcept`, so an
exception from `entity_root` (invalid identifier) would call
`std::terminate`, modelled as `.error`. -/
def touch_entity (id : String) (s : arachneState) :
    Except Unit (Bool × arachneState) :=
  let cnt := mapGetD s.candidates id 0 + 1
  let s1 := { s with candidates := mapSet s.candidates id cnt }
  if candidates_threshold ≤ cnt then
    match entity_root id with
    | .error _ => .error ()
    | .ok canonical =>
      let kind := identify canonical
      match s1.extra_batches.get? (kindIndex kind) with
      | none => .error ()
      | some pool =>
        .ok (true, { s1 with extra_batches :=
          s1.extra_batches.set (kindIndex kind) (setInsert pool canonical) })
  else .ok (false, s1)

/-- `arachne::add_entity` (src/src/arachne.cpp:235-251): root the id
(throws on invalid input), select the group, insert the verbatim id into
it, and--`force` or the admission policy agreeing--insert the canonical
root into the kind's main queue, flushing synchronously when the queue
reaches `batch_threshold`.  Returns the group's size. -/
def add_entity (id : String) (force : Bool) (name : String)
    (s : arachneState) (net : NetOracle) :
    Except Unit (Nat × arachneState) :=
  match entity_root id with
  | .error u => .error u
  | .ok canonical =>
    match select_group name s with
    | .error u => .error u
    | .ok s1 =>
      let g := setInsert (mapGetD s1.groups s1.current_group []) id
      let s2 := { s1 with groups := mapSet s1.groups s1.current_group g }
      let kind := identify canonical
      if force || enqueue canonical kind ui_command_line then
        match s2.main_batches.get? (kindIndex kind) with
        | none => .error ()
        | some pool =>
          let pool' := setInsert pool canonical
          let s3 := { s2 with main_batches :=
            s2.main_batches.set (kindIndex kind) pool' }
          if batch_threshold ≤ pool'.length then
            match flush kind s3 net with
            | .error u => .error u
            | .ok _ => .ok (g.length, s3)
          else .ok (g.length, s3)
      else .ok (g.length, s2)

/-! ## The retrying transport (`corespace::http_client`,
src/src/http_client.cpp)

`http_response` keeps the fields the retry logic reads: transport success
(`error_code == CURLE_OK`), HTTP status, and the `CURLINFO_RETRY_AFTER`
value in seconds (`none` when absent).  `net_metrics` keeps the counters
the checked properties mention (`requests`, `retries`, `sleep_ms`); the
status histogram, byte and time counters of `network_metrics` are
updated alongside and are elided.  The configuration values are the
`network_options` defaults of src/include/utils.hpp:184-188. -/

structure http_response where
  netOk : Bool
  status : Nat
  retryAfter : Option Nat
  deriving DecidableEq, Repr

structure net_metrics where
  requests : Nat
  retries : Nat
  sleep_ms : Nat
  deriving DecidableEq, Repr

def max_retries : Nat := 3

def retry_base_ms : Nat := 200

def retry_max_ms : Nat := 3000

/-- `http_client::status_good` (src/src/http_client.cpp:342-345). -/
def status_good (r : http_response) : Bool :=
  r.netOk && decide (200 ≤ r.status) && decide (r.status < 300)

/-- `http_client::status_retry` (src/src/http_client.cpp:347-352). -/
def status_retry (r : http_response) (net_ok : Bool) : Bool :=
  !net_ok || decide (r.status = 429) || decide (r.status = 408) ||
    (decide (500 ≤ r.status) && decide (r.status < 600))

/-- `http_client::next_delay` (src/src/http_client.cpp:354-358): base
`retry_base_ms * 2^(attempt-1)` plus a uniform draw in `[0, base]`
(supplied by the oracle), capped at `retry_max_ms`. -/
def next_delay (attempt : Nat) (draw : Nat) : Nat :=
  min (retry_base_ms * 2 ^ (attempt - 1) + draw) retry_max_ms

/-- `http_client::apply_server_retry_hint` (src/src/http_client.cpp:
360-372): a non-negative `CURLINFO_RETRY_AFTER` (seconds) raises the
sleep to at least that many milliseconds. -/
def apply_server_retry_hint (sleep_ms : Nat) (retryAfter : Option Nat) :
    Nat :=
  match retryAfter with
  | none => sleep_ms
  | some sec => max sleep_ms (sec * 1000)

/-- The retry loop of `http_client::get` (src/src/http_client.cpp:
68-101).  The oracle list supplies the outcome of each physical attempt
in order (`.error` when the oracle is exhausted, which no checked run
reaches); `draws` supplies the jitter draw per attempt.  Metrics are
updated after every attempt; a retry cycle additionally bumps `retries`
and accumulates the slept time; a terminal failure throws (`.error`,
standing for both the curl-error and http-error `std::runtime_error`s). -/
def http_get : Nat → List http_response → (Nat → Nat) → net_metrics →
    Except Unit (http_response × net_metrics)
  | _, [], _, _ => .error ()
  | attempt, r :: rest, draws, m =>
    let m1 : net_metrics := { m with requests := m.requests + 1 }
    if status_good r then .ok (r, m1)
    else if decide (attempt ≤ max_retries) && status_retry r r.netOk then
      let m2 : net_metrics := { m1 with retries := m1.retries + 1 }
      let sleep := apply_server_retry_hint (next_delay attempt (draws attempt))
        r.retryAfter
      let m3 : net_metrics := { m2 with sleep_ms := m2.sleep_ms + sleep }
      http_get (attempt + 1) rest draws m3
    else .error ()

/-! ## The legacy cpr-based courier transport
(`pheidippides::get_with_retries`, src/src/pheidippides.cpp:196-248)

This older transport snapshot computes its backoff with `jitter_ms` and
then applies the parsed `Retry-After` value (milliseconds, `none` when
absent) with `std::min` (src/src/pheidippides.cpp:231-234). -/

/-- `jitter_ms` (src/src/pheidippides.cpp:191-194): `min(base + draw,
cap)` with `draw` uniform in `[0, base]` (oracle-supplied). -/
def jitter_ms (base cap draw : Nat) : Nat := min (base + draw) cap

/-- The sleep actually performed by a retry cycle of
`pheidippides::get_with_retries` (src/src/pheidippides.cpp:228-235):
jittered exponential backoff, then `sleep_ms = std::min(sleep_ms, ra)`
when a `Retry-After` hint `ra >= 0` was parsed. -/
def phe_retry_sleep (base_ms cap_ms attempt draw : Nat)
    (retryAfterMs : Option Nat) : Nat :=
  let sleep := jitter_ms (base_ms * 2 ^ (attempt - 1)) cap_ms draw
  match retryAfterMs with
  | none => sleep
  | some ra => min sleep ra

/-- The identifier grammar, stated from the spec's data model: a
one-letter kind prefix followed by a canonical 32-bit numeral, optionally
(for lexemes) `-F<numeral>` or `-S<numeral>`.  Used to state what
`identify` accepts. -/
def wellFormedId (l : List Char) : Prop :=
  (∃ p k n, prefixFind p = some k ∧ n ≤ 2147483647 ∧ l = p :: natToStr n) ∨
  (∃ n m tag, n ≤ 2147483647 ∧ m ≤ 2147483647 ∧ (tag = 'F' ∨ tag = 'S') ∧
    l = 'L' :: (natToStr n ++ '-' :: tag :: natToStr m))

/-- The simple kind a round trip recovers: forms and senses collapse to
their parent lexeme (the spec's statement of the
`identify`/`normalize` round trip). -/
def simple_kind : entity_kind → entity_kind
  | .form => .lexeme
  | .sense => .lexeme
  | k => k

/-! ## Concrete scenario material used by the checked properties -/

/-- Network oracle under which every issued call succeeds. -/
def netAllOk : NetOracle := fun _ => .ok ()

/-- A manager state whose item queue holds three identifiers (as after
three `add_entity` admissions of Q1, Q2, Q3). -/
def threeItemsState : arachneState :=
  { initState [] with main_batches :=
      (List.replicate batched_kind_count []).set 0 ["Q1", "Q2", "Q3"] }

/-- `k` successive `touch_entity("Q42")` calls from a fresh manager,
returning the last call's result and the final state. -/
def touchQ42 : Nat → Except Unit (Bool × arachneState)
  | 0 => .ok (false, initState [])
  | k + 1 =>
    match touchQ42 k with
    | .error u => .error u
    | .ok (_, s) => touch_entity "Q42" s

/-- Run a sequence of `add_entity(id, force = false, name)` calls. -/
def addSeq : List (String × String) → arachneState → NetOracle →
    Except Unit (Nat × arachneState)
  | [], s, _ => .ok (0, s)
  | (id, name) :: rest, s, net =>
    match add_entity id false name s net with
    | .error u => .error u
    | .ok (n, s') =>
      match rest with
      | [] => .ok (n, s')
      | _ => addSeq rest s' net

/-- The end-to-end group scenario of the spec: Q1, Q1 again, L77-F2,
L77-S3, all into group `g1`. -/
def groupScenario (k : Nat) : Except Unit (Nat × arachneState) :=
  addSeq ([("Q1", "g1"), ("Q1", ""), ("L77-F2", ""), ("L77-S3", "")].take k)
    (initState []) netAllOk

/-- Response sequence of the retry scenario: three 503s then a 200, no
transport errors, no Retry-After hints. -/
def seq503 : List http_response :=
  [⟨true, 503, none⟩, ⟨true, 503, none⟩, ⟨true, 503, none⟩,
   ⟨true, 200, none⟩]

/-! ## Lemma zone: decimal rendering and digit strings -/

lemma natToStrF_congr : ∀ fuel fuel' n, n < fuel → n < fuel' →
    natToStrF fuel n = natToStrF fuel' n := by
  intro fuel
  induction fuel using Nat.strong_induction_on with
  | _ fuel ih =>
    intro fuel' n hn hn'
    match fuel, fuel' with
    | f + 1, f' + 1 =>
      simp only [natToStrF]
      split
      · rfl
      · rename_i h10
        have hdiv : n / 10 < n := Nat.div_lt_self (by omega) (by omega)
        rw [ih f (by omega) f' (n / 10) (by omega) (by omega)]

/-- The recursion equation of `natToStr`. -/
lemma natToStr_eq (n : Nat) :
    natToStr n = if n < 10 then [digitChar n]
      else natToStr (n / 10) ++ [digitChar (n % 10)] := by
  show natToStrF (n + 1) n = _
  simp only [natToStrF]
  split
  · rfl
  · rename_i h10
    have hdiv : n / 10 < n := Nat.div_lt_self (by omega) (by omega)
    rw [natToStrF_congr n (n / 10 + 1) (n / 10) (by omega) (by omega)]
    rfl

lemma mem_digitChars_iff (c : Char) :
    c ∈ digitChars ↔
      c = '0' ∨ c = '1' ∨ c = '2' ∨ c = '3' ∨ c = '4' ∨
      c = '5' ∨ c = '6' ∨ c = '7' ∨ c = '8' ∨ c = '9' := by
  simp [digitChars]

lemma isDig_cases {c : Char} (h : isDig c = true) :
    c = '0' ∨ c = '1' ∨ c = '2' ∨ c = '3' ∨ c = '4' ∨
    c = '5' ∨ c = '6' ∨ c = '7' ∨ c = '8' ∨ c = '9' := by
  have := of_decide_eq_true h
  exact (mem_digitChars_iff c).mp this

lemma charVal_lt_ten {c : Char} (h : isDig c = true) : charVal c < 10 := by
  rcases isDig_cases h with h | h | h | h | h | h | h | h | h | h <;>
    subst h <;> decide

lemma digitChar_charVal {c : Char} (h : isDig c = true) :
    digitChar (charVal c) = c := by
  rcases isDig_cases h with h | h | h | h | h | h | h | h | h | h <;>
    subst h <;> decide

lemma charVal_digitChar {n : Nat} (h : n < 10) : charVal (digitChar n) = n := by
  interval_cases n <;> decide

lemma isDig_digitChar {n : Nat} (h : n < 10) : isDig (digitChar n) = true := by
  interval_cases n <;> decide

lemma not_space_of_isDig {c : Char} (h : isDig c = true) :
    isCppSpace c = false := by
  rcases isDig_cases h with h | h | h | h | h | h | h | h | h | h <;>
    subst h <;> decide

lemma ne_sign_of_isDig {c : Char} (h : isDig c = true) :
    c ≠ '-' ∧ c ≠ '+' := by
  rcases isDig_cases h with h | h | h | h | h | h | h | h | h | h <;>
    subst h <;> exact ⟨by decide, by decide⟩

lemma digitsVal_append_singleton (l : List Char) (c : Char) :
    digitsVal (l ++ [c]) = 10 * digitsVal l + charVal c := by
  simp [digitsVal, List.foldl_append]

lemma natToStr_ne_nil (n : Nat) : natToStr n ≠ [] := by
  rw [natToStr_eq]
  split <;> simp

lemma natToStr_all_digits (n : Nat) : ∀ c ∈ natToStr n, isDig c = true := by
  induction n using Nat.strong_induction_on with
  | _ n ih =>
    rw [natToStr_eq]
    split
    · intro c hc
      simp at hc
      subst hc
      exact isDig_digitChar (by omega)
    · rename_i h
      intro c hc
      simp at hc
      rcases hc with hc | hc
      · exact ih (n / 10) (Nat.div_lt_self (by omega) (by omega)) c hc
      · subst hc
        exact isDig_digitChar (Nat.mod_lt _ (by omega))

lemma digitsVal_natToStr (n : Nat) : digitsVal (natToStr n) = n := by
  induction n using Nat.strong_induction_on with
  | _ n ih =>
    rw [natToStr_eq]
    split
    · rename_i h
      simp [digitsVal, charVal_digitChar h]
    · rename_i h
      rw [digitsVal_append_singleton,
        ih (n / 10) (Nat.div_lt_self (by omega) (by omega)),
        charVal_digitChar (Nat.mod_lt _ (by omega))]
      omega

lemma natToStr_length_pos (n : Nat) : 0 < (natToStr n).length :=
  List.length_pos.mpr (natToStr_ne_nil n)

lemma natToStr_length_le {n k : Nat} (hk : 1 ≤ k) (h : n < 10 ^ k) :
    (natToStr n).length ≤ k := by
  induction k generalizing n with
  | zero => omega
  | succ k ih =>
    rw [natToStr_eq]
    split
    · simp
    · rename_i hn
      have hk1 : 1 ≤ k := by
        by_contra hk0
        have : k = 0 := by omega
        subst this
        simp at h
        omega
      have : n / 10 < 10 ^ k := by
        rw [pow_succ] at h
        omega
      have := ih hk1 this
      simp only [List.length_append, List.length_cons, List.length_nil]
      omega

lemma digitsVal_lt_pow (ds : List Char) (h : ∀ c ∈ ds, isDig c = true) :
    digitsVal ds < 10 ^ ds.length := by
  induction ds using List.reverseRecOn with
  | nil => simp [digitsVal]
  | append_singleton l c ih =>
    rw [digitsVal_append_singleton]
    have hl : digitsVal l < 10 ^ l.length := by
      apply ih
      intro x hx
      exact h x (by simp [hx])
    have hc : charVal c < 10 := charVal_lt_ten (h c (by simp))
    simp only [List.length_append, List.length_cons, List.length_nil]
    calc 10 * digitsVal l + charVal c < 10 * digitsVal l + 10 := by omega
    _ = 10 * (digitsVal l + 1) := by ring
    _ ≤ 10 * 10 ^ l.length := by
        have : digitsVal l + 1 ≤ 10 ^ l.length := hl
        omega
    _ = 10 ^ (l.length + 1) := by ring

/-- Canonicality: a digit string whose length equals the length of the
canonical rendering of its value is that rendering. -/
lemma natToStr_canonical (ds : List Char) (hne : ds ≠ [])
    (hd : ∀ c ∈ ds, isDig c = true)
    (hlen : ds.length = (natToStr (digitsVal ds)).length) :
    ds = natToStr (digitsVal ds) := by
  induction ds using List.reverseRecOn with
  | nil => exact absurd rfl hne
  | append_singleton l c ih =>
    rcases List.eq_nil_or_concat l with hl | ⟨l', c', rfl⟩
    · subst hl
      simp only [List.nil_append]
      rw [show digitsVal [c] = charVal c by simp [digitsVal]]
      rw [natToStr_eq]
      rw [if_pos (charVal_lt_ten (hd c (by simp)))]
      rw [digitChar_charVal (hd c (by simp))]
    · simp only [List.concat_eq_append] at ih hne hd hlen ⊢
      set ds0 := l' ++ [c'] with hds0
      have hne0 : ds0 ≠ [] := by simp [hds0]
      have hd0 : ∀ x ∈ ds0, isDig x = true := fun x hx => hd x (by
        simp only [List.mem_append] at hx ⊢
        tauto)
      have hval : digitsVal (ds0 ++ [c]) = 10 * digitsVal ds0 + charVal c :=
        digitsVal_append_singleton _ _
      set v := digitsVal (ds0 ++ [c]) with hv
      have hv10 : ¬ v < 10 := by
        intro hlt
        have h1 : (natToStr v).length = 1 := by
          rw [natToStr_eq, if_pos hlt]
          simp
        have : (ds0 ++ [c]).length = 1 := by rw [hlen, h1]
        simp [hds0] at this
      have hsplit : natToStr v = natToStr (v / 10) ++ [digitChar (v % 10)] := by
        rw [natToStr_eq]
        rw [if_neg hv10]
      have hdiv : v / 10 = digitsVal ds0 := by
        rw [hval]
        have hc : charVal c < 10 := charVal_lt_ten (hd c (by simp))
        omega
      have hmod : v % 10 = charVal c := by
        rw [hval]
        have hc : charVal c < 10 := charVal_lt_ten (hd c (by simp))
        omega
      have hcc : digitChar (v % 10) = c := by
        rw [hmod]
        exact digitChar_charVal (hd c (by simp))
      have hlen0 : ds0.length = (natToStr (digitsVal ds0)).length := by
        have := hlen
        rw [hsplit] at this
        simp only [List.length_append, List.length_cons, List.length_nil] at this
        rw [hdiv] at this
        omega
      have := ih hne0 hd0 hlen0
      rw [hsplit, hdiv, hcc, ← this]

/-! ## Lemma zone: `stoiE` and `parse_id` -/

lemma takeWhile_append_of_all {p : Char → Bool} (l r : List Char)
    (h : ∀ c ∈ l, p c = true) :
    (l ++ r).takeWhile p = l ++ r.takeWhile p := by
  induction l with
  | nil => simp
  | cons c t ih =>
    have hc : p c = true := h c (by simp)
    have ht : ∀ x ∈ t, p x = true := fun x hx => h x (by simp [hx])
    simp [List.takeWhile_cons, hc, ih ht]

lemma takeWhile_eq_nil_of_noDigitHead {r : List Char}
    (h : noDigitHead r = true) : r.takeWhile isDig = [] := by
  cases r with
  | nil => rfl
  | cons c t =>
    simp only [noDigitHead, Bool.not_eq_true'] at h
    simp [List.takeWhile_cons, h]

lemma noDigitHead_dropWhile (l : List Char) :
    noDigitHead (l.dropWhile isDig) = true := by
  induction l with
  | nil => rfl
  | cons c t ih =>
    rw [List.dropWhile_cons]
    split
    · exact ih
    · rename_i h
      simp [noDigitHead, h]

/-- Rewrites `parse_id` once the `stoiE` outcome is known to succeed. -/
lemma parse_id_eq_ok {e : List Char} {pos : Nat} {v : Int} {len : Nat}
    (h : stoiE (e.drop pos) = .ok (v, len)) :
    parse_id e pos =
      (if v < 0 ∨ len = 0 ∨ (natToStr v.toNat).length ≠ len then none
       else some (v, pos + len)) := by
  simp only [parse_id, h]

/-- Rewrites `parse_id` once the `stoiE` outcome is known to fail
(the `catch (...)` clause of `arachne::parse_id`). -/
lemma parse_id_eq_err {e : List Char} {pos : Nat} {u : Unit}
    (h : stoiE (e.drop pos) = .error u) : parse_id e pos = none := by
  simp only [parse_id, h]

/-- When the input starts with a digit, `stoiE` skips no whitespace and
sees no sign: it reads the maximal digit run and checks the positive
bound. -/
lemma stoiE_digit_head {d : Char} {t : List Char} (hd : isDig d = true) :
    stoiE (d :: t) =
      (if digitsVal ((d :: t).takeWhile isDig) ≤ 2147483647 then
        .ok ((digitsVal ((d :: t).takeWhile isDig) : Int),
          ((d :: t).takeWhile isDig).length)
      else .error ()) := by
  have hspace : isCppSpace d = false := not_space_of_isDig hd
  have hsign := ne_sign_of_isDig hd
  have hdrop : (d :: t).dropWhile isCppSpace = d :: t := by
    rw [List.dropWhile_cons, if_neg (by simp [hspace])]
  have hne : (d :: t).takeWhile isDig = d :: t.takeWhile isDig := by
    rw [List.takeWhile_cons, if_pos hd]
  have hm : ((d :: t).head? = some '-') = False := by simp [hsign.1]
  have hp : ((d :: t).head? = some '+') = False := by simp [hsign.2]
  simp only [stoiE, hdrop, hm, hp, or_self, decide_False, Bool.false_eq_true,
    if_false, Nat.sub_self, hne, List.isEmpty_cons, Nat.zero_add]

lemma stoiE_canonical (n : Nat) (rest : List Char) (hn : n ≤ 2147483647)
    (hrest : noDigitHead rest = true) :
    stoiE (natToStr n ++ rest) = .ok ((n : Int), (natToStr n).length) := by
  obtain ⟨d, t, hdt⟩ := List.exists_cons_of_ne_nil (natToStr_ne_nil n)
  have hdig : isDig d = true := natToStr_all_digits n d (by rw [hdt]; simp)
  have htake : (natToStr n ++ rest).takeWhile isDig = natToStr n := by
    rw [takeWhile_append_of_all _ _ (natToStr_all_digits n),
      takeWhile_eq_nil_of_noDigitHead hrest, List.append_nil]
  have hcons : natToStr n ++ rest = d :: (t ++ rest) := by rw [hdt]; rfl
  rw [hcons] at htake ⊢
  rw [stoiE_digit_head hdig, htake, digitsVal_natToStr, if_pos hn]

lemma parse_id_canonical (e : List Char) (pos n : Nat) (rest : List Char)
    (hdrop : e.drop pos = natToStr n ++ rest) (hrest : noDigitHead rest = true)
    (hn : n ≤ 2147483647) :
    parse_id e pos = some ((n : Int), pos + (natToStr n).length) := by
  have hsto : stoiE (e.drop pos) = .ok ((n : Int), (natToStr n).length) := by
    rw [hdrop, stoiE_canonical n rest hn hrest]
  rw [parse_id_eq_ok hsto]
  have hnz : (natToStr n).length ≠ 0 := by
    have := natToStr_length_pos n
    omega
  have hlen : (natToStr (Int.toNat (n : Int))).length = (natToStr n).length := by
    rw [Int.toNat_natCast]
  rw [if_neg (by push_neg; exact ⟨Int.natCast_nonneg n, hnz, hlen⟩)]

lemma parse_id_leading_zero (e : List Char) (pos : Nat) {d : Char}
    {tl : List Char} (hdrop : e.drop pos = '0' :: d :: tl)
    (hd : isDig d = true) : parse_id e pos = none := by
  have h0 : isDig '0' = true := by decide
  have htake : ('0' :: d :: tl).takeWhile isDig
      = '0' :: d :: tl.takeWhile isDig := by
    rw [List.takeWhile_cons, if_pos h0, List.takeWhile_cons, if_pos hd]
  have hdigs : ∀ c ∈ d :: tl.takeWhile isDig, isDig c = true := by
    intro c hc
    rcases List.mem_cons.mp hc with hc | hc
    · exact hc ▸ hd
    · exact List.mem_takeWhile_imp hc
  have hvalz : digitsVal ('0' :: d :: tl.takeWhile isDig)
      = digitsVal (d :: tl.takeWhile isDig) := by
    simp [digitsVal, charVal]
  by_cases hble : digitsVal (d :: tl.takeWhile isDig) ≤ 2147483647
  · have hsto : stoiE (e.drop pos) =
        .ok ((digitsVal (d :: tl.takeWhile isDig) : Int),
          ('0' :: d :: tl.takeWhile isDig).length) := by
      rw [hdrop, stoiE_digit_head h0, htake, hvalz, if_pos hble]
    rw [parse_id_eq_ok hsto]
    have hlt : digitsVal (d :: tl.takeWhile isDig)
        < 10 ^ (d :: tl.takeWhile isDig).length := digitsVal_lt_pow _ hdigs
    have hlenle : (natToStr (digitsVal (d :: tl.takeWhile isDig))).length
        ≤ (d :: tl.takeWhile isDig).length :=
      natToStr_length_le (by simp) hlt
    rw [if_pos]
    right
    right
    rw [Int.toNat_natCast]
    simp only [List.length_cons] at hlenle ⊢
    omega
  · have hsto : stoiE (e.drop pos) = .error () := by
      rw [hdrop, stoiE_digit_head h0, htake, hvalz, if_neg hble]
    exact parse_id_eq_err hsto

lemma parse_id_overflow (e : List Char) (pos : Nat) {ds rest : List Char}
    (hdrop : e.drop pos = ds ++ rest) (hne : ds ≠ [])
    (hdig : ∀ c ∈ ds, isDig c = true) (hrest : noDigitHead rest = true)
    (hover : 2147483648 ≤ digitsVal ds) : parse_id e pos = none := by
  obtain ⟨d, t, rfl⟩ := List.exists_cons_of_ne_nil hne
  have hd : isDig d = true := hdig d (by simp)
  have htake : (d :: (t ++ rest)).takeWhile isDig = d :: t := by
    have : (d :: t ++ rest).takeWhile isDig = (d :: t) ++ [] := by
      rw [takeWhile_append_of_all _ _ hdig,
        takeWhile_eq_nil_of_noDigitHead hrest]
    simpa using this
  have hsto : stoiE (e.drop pos) = .error () := by
    rw [hdrop, List.cons_append, stoiE_digit_head hd, htake,
      if_neg (by omega)]
  exact parse_id_eq_err hsto

lemma stoiE_err_of_no_digits (r : List Char)
    (h : ∀ c ∈ r, isDig c = false) : stoiE r = .error () := by
  have key : ∀ u : List Char, u ⊆ r → u.takeWhile isDig = [] := by
    intro u hu
    cases hh : u.takeWhile isDig with
    | nil => rfl
    | cons c cs =>
      exfalso
      have hc : c ∈ u.takeWhile isDig := by rw [hh]; simp
      have hcd : isDig c = true := List.mem_takeWhile_imp hc
      have hcu : c ∈ u :=
        (show List.Sublist (u.takeWhile isDig) u from List.takeWhile_sublist _).subset hc
      rw [h c (hu hcu)] at hcd
      exact Bool.false_ne_true hcd
  have hsub1 : r.dropWhile isCppSpace ⊆ r :=
    (show List.Sublist (r.dropWhile isCppSpace) r from List.dropWhile_sublist _).subset
  have hsub2 : (r.dropWhile isCppSpace).tail ⊆ r :=
    fun x hx => hsub1 ((List.tail_sublist _).subset hx)
  have hemp : ((if ((r.dropWhile isCppSpace).head? = some '-' ∨
      (r.dropWhile isCppSpace).head? = some '+' : Bool) = true
      then (r.dropWhile isCppSpace).tail
      else r.dropWhile isCppSpace).takeWhile isDig).isEmpty = true := by
    rw [List.isEmpty_iff]
    split
    · exact key _ hsub2
    · exact key _ hsub1
  simp only [stoiE, hemp, if_true]

lemma parse_id_err_of_no_digits (e : List Char) (pos : Nat)
    (h : ∀ c ∈ e.drop pos, isDig c = false) : parse_id e pos = none :=
  parse_id_eq_err (stoiE_err_of_no_digits _ h)

/-- Forward characterization of a successful `parse_id`: the consumed
substring is exactly the canonical rendering of a 32-bit non-negative
value, and what follows does not start with a digit. -/
lemma parse_id_some {e : List Char} {pos : Nat} {v : Int} {p2 : Nat}
    (h : parse_id e pos = some (v, p2)) :
    ∃ n : Nat, v = (n : Int) ∧ n ≤ 2147483647 ∧
      p2 = pos + (natToStr n).length ∧
      e.drop pos = natToStr n ++ (e.drop pos).dropWhile isDig ∧
      noDigitHead ((e.drop pos).dropWhile isDig) = true := by
  cases hstoi : stoiE (e.drop pos) with
  | error u =>
    rw [parse_id_eq_err hstoi] at h
    exact absurd h (by simp)
  | ok pr =>
    obtain ⟨v0, len⟩ := pr
    rw [parse_id_eq_ok hstoi] at h
    by_cases hcheck : v0 < 0 ∨ len = 0 ∨ (natToStr v0.toNat).length ≠ len
    · rw [if_pos hcheck] at h
      exact absurd h (by simp)
    rw [if_neg hcheck] at h
    push_neg at hcheck
    obtain ⟨hv0, hlen0, hrt⟩ := hcheck
    have hpr : (v0, pos + len) = (v, p2) := Option.some.inj h
    obtain ⟨rfl, rfl⟩ : v0 = v ∧ pos + len = p2 := Prod.mk.injEq _ _ _ _ ▸ hpr
    -- analyse the stoi computation
    set r := e.drop pos with hr
    set r1 := r.dropWhile isCppSpace with hr1
    have hr1le : r1.length ≤ r.length :=
      (show List.Sublist (r.dropWhile isCppSpace) r from List.dropWhile_sublist _).length_le
    by_cases hsgn : r1.head? = some '-' ∨ r1.head? = some '+'
    · -- a sign was consumed: the round-trip length check cannot pass
      exfalso
      have hsgnB : ((r1.head? = some '-' ∨ r1.head? = some '+' : Bool)) = true := by
        simpa using hsgn
      rcases hsgn with hminus | hplus
      · have hnegB : ((r1.head? = some '-' : Bool)) = true := by simpa using hminus
        simp only [stoiE, ← hr1, hsgnB, hnegB, eq_self_iff_true, if_true] at hstoi
        set ds := r1.tail.takeWhile isDig with hds
        by_cases hemp : ds.isEmpty
        · rw [if_pos hemp] at hstoi
          exact absurd hstoi (by simp)
        rw [if_neg hemp] at hstoi
        by_cases hbound : digitsVal ds ≤ 2147483648
        · rw [if_pos hbound] at hstoi
          have hpair := Except.ok.inj hstoi
          have hveq : -(digitsVal ds : Int) = v0 := congrArg Prod.fst hpair
          have hleneq : r.length - r1.length + 1 + ds.length = len :=
            congrArg Prod.snd hpair
          have hm0 : digitsVal ds = 0 := by omega
          have hvz : v0 = 0 := by omega
          have hlen1 : (natToStr v0.toNat).length = 1 := by
            rw [hvz]
            rfl
          have hdsne : 0 < ds.length :=
            List.length_pos.mpr (by simpa [List.isEmpty_iff] using hemp)
          omega
        · rw [if_neg hbound] at hstoi
          exact absurd hstoi (by simp)
      · have hnegB : ((r1.head? = some '-' : Bool)) = false := by
          rcases hh : r1.head? with _ | c
          · simp
          · rw [hh] at hplus
            have : c = '+' := by simpa using hplus
            simp [this]
        simp only [stoiE, ← hr1, hsgnB, hnegB, eq_self_iff_true, if_true,
          Bool.false_eq_true, if_false] at hstoi
        set ds := r1.tail.takeWhile isDig with hds
        by_cases hemp : ds.isEmpty
        · rw [if_pos hemp] at hstoi
          exact absurd hstoi (by simp)
        rw [if_neg hemp] at hstoi
        by_cases hbound : digitsVal ds ≤ 2147483647
        · rw [if_pos hbound] at hstoi
          have hpair := Except.ok.inj hstoi
          have hveq : ((digitsVal ds : Int)) = v0 := congrArg Prod.fst hpair
          have hleneq : r.length - r1.length + 1 + ds.length = len :=
            congrArg Prod.snd hpair
          have hdsdig : ∀ c ∈ ds, isDig c = true :=
            fun c hc => List.mem_takeWhile_imp hc
          have hlt : digitsVal ds < 10 ^ ds.length := digitsVal_lt_pow _ hdsdig
          have hdsne : 0 < ds.length :=
            List.length_pos.mpr (by simpa [List.isEmpty_iff] using hemp)
          have hle : (natToStr (digitsVal ds)).length ≤ ds.length :=
            natToStr_length_le hdsne hlt
          have htn : (natToStr v0.toNat).length = (natToStr (digitsVal ds)).length := by
            rw [← hveq, Int.toNat_natCast]
          exact absurd hrt (by omega)
        · rw [if_neg hbound] at hstoi
          exact absurd hstoi (by simp)
    · -- no sign: whitespace count and canonical length are forced to match
      have hsgnB : ((r1.head? = some '-' ∨ r1.head? = some '+' : Bool)) = false := by
        simpa using hsgn
      have hnegB : ((r1.head? = some '-' : Bool)) = false := by
        simp only [decide_eq_false_iff_not]
        intro hcon
        exact hsgn (Or.inl hcon)
      simp only [stoiE, ← hr1, hsgnB, hnegB, Bool.false_eq_true, if_false] at hstoi
      set ds := r1.takeWhile isDig with hds
      by_cases hemp : ds.isEmpty
      · rw [if_pos hemp] at hstoi
        exact absurd hstoi (by simp)
      rw [if_neg hemp] at hstoi
      by_cases hbound : digitsVal ds ≤ 2147483647
      · rw [if_pos hbound] at hstoi
        have hpair := Except.ok.inj hstoi
        have hveq : ((digitsVal ds : Int)) = v0 := congrArg Prod.fst hpair
        have hleneq : r.length - r1.length + 0 + ds.length = len :=
          congrArg Prod.snd hpair
        have hdsdig : ∀ c ∈ ds, isDig c = true :=
          fun c hc => List.mem_takeWhile_imp hc
        have hlt : digitsVal ds < 10 ^ ds.length := digitsVal_lt_pow _ hdsdig
        have hdsne : 0 < ds.length :=
          List.length_pos.mpr (by simpa [List.isEmpty_iff] using hemp)
        have hle : (natToStr (digitsVal ds)).length ≤ ds.length :=
          natToStr_length_le hdsne hlt
        have htn : (natToStr v0.toNat).length = (natToStr (digitsVal ds)).length := by
          rw [← hveq, Int.toNat_natCast]
        have hws : r.length - r1.length = 0 := by omega
        have hdslen : ds.length = (natToStr (digitsVal ds)).length := by omega
        have hr1r : r1 = r := by
          apply (show List.Sublist (r.dropWhile isCppSpace) r from
            List.dropWhile_sublist _).eq_of_length
          rw [← hr1]
          omega
        have hdsnenil : ds ≠ [] := by simpa [List.isEmpty_iff] using hemp
        have hcanon : ds = natToStr (digitsVal ds) :=
          natToStr_canonical ds hdsnenil hdsdig hdslen
        refine ⟨digitsVal ds, hveq.symm, hbound, by omega, ?_, ?_⟩
        · rw [← hr1r]
          conv_lhs => rw [← (show r1.takeWhile isDig ++ r1.dropWhile isDig = r1
            from List.takeWhile_append_dropWhile isDig r1), ← hds]
          rw [← hcanon]
        · rw [← hr1r]
          exact noDigitHead_dropWhile r1
      · rw [if_neg hbound] at hstoi
        exact absurd hstoi (by simp)


/-! ## Lemma zone: `identify` -/

lemma drop_append_len (l r : List Char) (i : Nat) :
    (l ++ r).drop (l.length + i) = r.drop i := by
  induction l with
  | nil => simp
  | cons a t ih =>
    rw [List.cons_append, List.length_cons,
      show t.length + 1 + i = (t.length + i) + 1 by omega,
      List.drop_succ_cons, ih]

lemma get_append_len (l r : List Char) (i : Nat) :
    (l ++ r).get? (l.length + i) = r.get? i := by
  induction l with
  | nil => simp
  | cons a t ih =>
    rw [List.cons_append, List.length_cons,
      show t.length + 1 + i = (t.length + i) + 1 by omega,
      List.get?_cons_succ, ih]

lemma prefixFind_eq_none {c : Char} (h : c ∉ prefixes) : prefixFind c = none := by
  simp only [prefixes, List.mem_cons, List.not_mem_nil, or_false, not_or] at h
  obtain ⟨h1, h2, h3, h4, h5⟩ := h
  simp [prefixFind, h1, h2, h3, h4, h5]

lemma prefixFind_mem {c : Char} {k : Nat} (h : prefixFind c = some k) :
    c ∈ prefixes := by
  by_contra hc
  rw [prefixFind_eq_none hc] at h
  exact Option.noConfusion h

lemma prefixFind_two {c : Char} (h : prefixFind c = some 2) : c = 'L' := by
  simp only [prefixFind] at h
  split_ifs at h <;> simp_all

lemma identifyL_unknown_prefix (c : Char) (cs : List Char)
    (h : c ∉ prefixes) : identifyL (c :: cs) = .unknown := by
  by_cases hl : (c :: cs).length < 2
  · simp only [identifyL]
    rw [if_pos hl]
  · simp only [identifyL, if_neg hl, List.head?_cons, prefixFind_eq_none h]

lemma identifyL_no_numeral (c : Char) (cs : List Char)
    (h : ∀ d ∈ cs, isDig d = false) : identifyL (c :: cs) = .unknown := by
  by_cases hl : (c :: cs).length < 2
  · simp only [identifyL]
    rw [if_pos hl]
  · have hparse : parse_id (c :: cs) 1 = none :=
      parse_id_err_of_no_digits _ 1 (by simpa using h)
    cases hpf : prefixFind c with
    | none => simp only [identifyL, if_neg hl, List.head?_cons, hpf]
    | some k => simp only [identifyL, if_neg hl, List.head?_cons, hpf, hparse]

lemma identifyL_leading_zero (c d : Char) (rest : List Char)
    (hd : isDig d = true) : identifyL (c :: '0' :: d :: rest) = .unknown := by
  have hl : ¬ ((c :: '0' :: d :: rest).length < 2) := by simp
  have hparse : parse_id (c :: '0' :: d :: rest) 1 = none :=
    parse_id_leading_zero _ 1 (by rfl) hd
  cases hpf : prefixFind c with
  | none => simp only [identifyL, if_neg hl, List.head?_cons, hpf]
  | some k => simp only [identifyL, if_neg hl, List.head?_cons, hpf, hparse]

lemma identifyL_overflow (c : Char) (ds rest : List Char) (hne : ds ≠ [])
    (hdig : ∀ x ∈ ds, isDig x = true) (hrest : noDigitHead rest = true)
    (hover : 2147483648 ≤ digitsVal ds) :
    identifyL (c :: (ds ++ rest)) = .unknown := by
  have hl : ¬ ((c :: (ds ++ rest)).length < 2) := by
    have : 0 < ds.length := List.length_pos.mpr hne
    simp only [List.length_cons, List.length_append]
    omega
  have hparse : parse_id (c :: (ds ++ rest)) 1 = none :=
    parse_id_overflow _ 1 (by rfl) hne hdig hrest hover
  cases hpf : prefixFind c with
  | none => simp only [identifyL, if_neg hl, List.head?_cons, hpf]
  | some k => simp only [identifyL, if_neg hl, List.head?_cons, hpf, hparse]

lemma identifyL_prefix_num (p : Char) (k n : Nat)
    (hp : prefixFind p = some k) (hn : n ≤ 2147483647) :
    identifyL (p :: natToStr n) = kindOfNat k := by
  have hl : ¬ ((p :: natToStr n).length < 2) := by
    have := natToStr_length_pos n
    simp only [List.length_cons]
    omega
  have hparse : parse_id (p :: natToStr n) 1
      = some ((n : Int), 1 + (natToStr n).length) :=
    parse_id_canonical _ 1 n [] (by simp) (by rfl) hn
  simp only [identifyL, if_neg hl, List.head?_cons, hp, hparse]
  rw [if_pos (by simp only [List.length_cons]; omega)]

lemma get_append_self (l r : List Char) : (l ++ r).get? l.length = r.get? 0 := by
  simpa using get_append_len l r 0

/-- After a canonical first numeral that does not end the string,
`identify` proceeds to the lexeme-suffix logic. -/
lemma identifyL_tail (p : Char) (k n : Nat) (rest : List Char)
    (hp : prefixFind p = some k) (hn : n ≤ 2147483647)
    (hrest : noDigitHead rest = true) (hne : rest ≠ []) :
    identifyL (p :: (natToStr n ++ rest)) =
      (if k ≠ kindIndex .lexeme ∨
          (p :: (natToStr n ++ rest)).length ≤ 1 + (natToStr n).length ∨
          (p :: (natToStr n ++ rest)).get? (1 + (natToStr n).length) ≠ some '-' ∨
          (p :: (natToStr n ++ rest)).length ≤ 1 + (natToStr n).length + 1
        then .unknown
        else
          match (p :: (natToStr n ++ rest)).get? (1 + (natToStr n).length + 1) with
          | none => .unknown
          | some tag =>
            if tag ≠ 'F' ∧ tag ≠ 'S' then .unknown
            else
              match parse_id (p :: (natToStr n ++ rest))
                  (1 + (natToStr n).length + 2) with
              | none => .unknown
              | some (_, pos2) =>
                if pos2 ≠ (p :: (natToStr n ++ rest)).length then .unknown
                else if tag = 'F' then .form else .sense) := by
  have hrl : 0 < rest.length := List.length_pos.mpr hne
  have hl : ¬ ((p :: (natToStr n ++ rest)).length < 2) := by
    have := natToStr_length_pos n
    simp only [List.length_cons, List.length_append]
    omega
  have hparse : parse_id (p :: (natToStr n ++ rest)) 1
      = some ((n : Int), 1 + (natToStr n).length) :=
    parse_id_canonical _ 1 n rest (by rfl) hrest hn
  simp only [identifyL, if_neg hl, List.head?_cons, hp, hparse]
  rw [if_neg (by simp only [List.length_cons, List.length_append]; omega)]

lemma identifyL_bad_tag (n : Nat) (tag : Char) (rest2 : List Char)
    (hn : n ≤ 2147483647) (hF : tag ≠ 'F') (hS : tag ≠ 'S') :
    identifyL ('L' :: (natToStr n ++ '-' :: tag :: rest2)) = .unknown := by
  have hLk : prefixFind 'L' = some 2 := by decide
  rw [identifyL_tail 'L' 2 n ('-' :: tag :: rest2) hLk hn (by rfl) (by simp)]
  have hdash : ('L' :: (natToStr n ++ '-' :: tag :: rest2)).get?
      (1 + (natToStr n).length) = some '-' := by
    rw [show 1 + (natToStr n).length = (natToStr n).length + 1 by omega,
      List.get?_cons_succ, get_append_self]
    rfl
  have htag : ('L' :: (natToStr n ++ '-' :: tag :: rest2)).get?
      (1 + (natToStr n).length + 1) = some tag := by
    rw [show 1 + (natToStr n).length + 1 = (natToStr n).length + 1 + 1 by omega,
      List.get?_cons_succ, get_append_len _ _ 1]
    rfl
  rw [if_neg]
  · simp only [htag]
    rw [if_pos ⟨hF, hS⟩]
  · push_neg
    refine ⟨rfl, ?_, by rw [hdash], ?_⟩ <;>
      · simp only [List.length_cons, List.length_append]
        omega

lemma identifyL_nonlexeme_tail (p : Char) (k n : Nat) (rest : List Char)
    (hp : prefixFind p = some k) (hk : k ≠ 2) (hn : n ≤ 2147483647)
    (hrest : noDigitHead rest = true) (hne : rest ≠ []) :
    identifyL (p :: (natToStr n ++ rest)) = .unknown := by
  rw [identifyL_tail p k n rest hp hn hrest hne]
  rw [if_pos (Or.inl (by simpa [kindIndex] using hk))]

lemma identifyL_lexeme_bad_tail (n : Nat) (c : Char) (rest : List Char)
    (hn : n ≤ 2147483647) (hc : isDig c = false) (hdash : c ≠ '-') :
    identifyL ('L' :: (natToStr n ++ c :: rest)) = .unknown := by
  have hLk : prefixFind 'L' = some 2 := by decide
  rw [identifyL_tail 'L' 2 n (c :: rest) hLk hn (by simp [noDigitHead, hc])
    (by simp)]
  have hget : ('L' :: (natToStr n ++ c :: rest)).get?
      (1 + (natToStr n).length) = some c := by
    rw [show 1 + (natToStr n).length = (natToStr n).length + 1 by omega,
      List.get?_cons_succ, get_append_self]
    rfl
  rw [if_pos]
  right
  right
  left
  rw [hget]
  simp [hdash]

lemma identifyL_suffix_trailing (n m : Nat) (tag c : Char)
    (rest2 : List Char) (hn : n ≤ 2147483647) (hm : m ≤ 2147483647)
    (htag : tag = 'F' ∨ tag = 'S') (hc : isDig c = false) :
    identifyL ('L' :: (natToStr n ++ '-' :: tag ::
      (natToStr m ++ c :: rest2))) = .unknown := by
  have hLk : prefixFind 'L' = some 2 := by decide
  rw [identifyL_tail 'L' 2 n ('-' :: tag :: (natToStr m ++ c :: rest2)) hLk hn
    (by rfl) (by simp)]
  have hdash : ('L' :: (natToStr n ++ '-' :: tag :: (natToStr m ++ c :: rest2))).get?
      (1 + (natToStr n).length) = some '-' := by
    rw [show 1 + (natToStr n).length = (natToStr n).length + 1 by omega,
      List.get?_cons_succ, get_append_self]
    rfl
  have hgtag : ('L' :: (natToStr n ++ '-' :: tag :: (natToStr m ++ c :: rest2))).get?
      (1 + (natToStr n).length + 1) = some tag := by
    rw [show 1 + (natToStr n).length + 1 = (natToStr n).length + 1 + 1 by omega,
      List.get?_cons_succ, get_append_len _ _ 1]
    rfl
  have hdrop2 : ('L' :: (natToStr n ++ '-' :: tag :: (natToStr m ++ c :: rest2))).drop
      (1 + (natToStr n).length + 2) = natToStr m ++ c :: rest2 := by
    rw [show 1 + (natToStr n).length + 2 = ((natToStr n).length + 2) + 1 by omega,
      List.drop_succ_cons,
      show (natToStr n).length + 2 = (natToStr n).length + 2 from rfl,
      drop_append_len _ _ 2]
    rfl
  have hparse2 : parse_id
      ('L' :: (natToStr n ++ '-' :: tag :: (natToStr m ++ c :: rest2)))
      (1 + (natToStr n).length + 2)
      = some ((m : Int), 1 + (natToStr n).length + 2 + (natToStr m).length) :=
    parse_id_canonical _ _ m (c :: rest2) hdrop2 (by simp [noDigitHead, hc]) hm
  rw [if_neg]
  · simp only [hgtag]
    rw [if_neg (by push_neg; intro h1; by_contra h2; rcases htag with h | h
          <;> simp_all)]
    simp only [hparse2]
    rw [if_pos (by simp only [List.length_cons, List.length_append]; omega)]
  · push_neg
    refine ⟨rfl, ?_, by rw [hdash], ?_⟩ <;>
      · simp only [List.length_cons, List.length_append]
        omega

/-- A parse at a position whose remainder does not start with a digit
cannot succeed: a successful `parse_id` consumes a canonical numeral,
whose first character is a digit. -/
lemma parse_id_none_of_nondigit_head (e : List Char) (pos : Nat)
    {c2 : Char} {cs : List Char} (hdrop : e.drop pos = c2 :: cs)
    (hc2 : isDig c2 = false) : parse_id e pos = none := by
  cases hp : parse_id e pos with
  | none => rfl
  | some pr =>
    exfalso
    obtain ⟨v, p2⟩ := pr
    obtain ⟨n, -, -, -, hd, -⟩ := parse_id_some hp
    rw [hdrop] at hd
    obtain ⟨d, t, hdt⟩ := List.exists_cons_of_ne_nil (natToStr_ne_nil n)
    have hddig : isDig d = true := natToStr_all_digits n d (by rw [hdt]; simp)
    rw [hdt, List.cons_append] at hd
    have hc2d : c2 = d := (List.cons.injEq _ _ _ _ ▸ hd).1
    rw [hc2d, hddig] at hc2
    exact Bool.noConfusion hc2

/-- Every string whose second character is not a digit is rejected:
the numeral after the prefix must start immediately with a digit
(whitespace, signs and other characters all fail the round-trip or the
parse). -/
lemma identifyL_nondigit_after_prefix (c c2 : Char) (cs : List Char)
    (hc2 : isDig c2 = false) : identifyL (c :: c2 :: cs) = .unknown := by
  have hl : ¬ ((c :: c2 :: cs).length < 2) := by simp
  have hparse : parse_id (c :: c2 :: cs) 1 = none :=
    parse_id_none_of_nondigit_head _ 1 (by rfl) hc2
  cases hpf : prefixFind c with
  | none => simp only [identifyL, if_neg hl, List.head?_cons, hpf]
  | some k => simp only [identifyL, if_neg hl, List.head?_cons, hpf, hparse]

/-- Dropping past `L<numeral>-<tag>` lands on the suffix numeral. -/
lemma suffix_drop (n : Nat) (tag : Char) (rest2 : List Char) :
    ('L' :: (natToStr n ++ '-' :: tag :: rest2)).drop
      (1 + (natToStr n).length + 2) = rest2 := by
  rw [show 1 + (natToStr n).length + 2 = ((natToStr n).length + 2) + 1 by omega,
    List.drop_succ_cons, drop_append_len _ _ 2]
  rfl

/-- A lexeme numeral followed by a bare `-` (as in `L1-`) is rejected by
the `pos >= entity.size()` guard after the dash. -/
lemma identifyL_dash_end (n : Nat) (hn : n ≤ 2147483647) :
    identifyL ('L' :: (natToStr n ++ ['-'])) = .unknown := by
  rw [identifyL_tail 'L' 2 n ['-'] (by decide) hn (by rfl) (by simp)]
  rw [if_pos]
  right
  right
  right
  simp only [List.length_cons, List.length_append, List.length_nil]
  omega

/-- After a good `-F`/`-S` tag, `identify` reduces to the second
`parse_id` and the end-of-string check. -/
lemma identifyL_suffix_parse (n : Nat) (tag : Char) (rest2 : List Char)
    (hn : n ≤ 2147483647) (htag : tag = 'F' ∨ tag = 'S') :
    identifyL ('L' :: (natToStr n ++ '-' :: tag :: rest2)) =
      (match parse_id ('L' :: (natToStr n ++ '-' :: tag :: rest2))
          (1 + (natToStr n).length + 2) with
        | none => .unknown
        | some (_, pos2) =>
          if pos2 ≠ ('L' :: (natToStr n ++ '-' :: tag :: rest2)).length
          then .unknown
          else if tag = 'F' then .form else .sense) := by
  rw [identifyL_tail 'L' 2 n ('-' :: tag :: rest2) (by decide) hn (by rfl)
    (by simp)]
  have hdash : ('L' :: (natToStr n ++ '-' :: tag :: rest2)).get?
      (1 + (natToStr n).length) = some '-' := by
    rw [show 1 + (natToStr n).length = (natToStr n).length + 1 by omega,
      List.get?_cons_succ, get_append_self]
    rfl
  have hgtag : ('L' :: (natToStr n ++ '-' :: tag :: rest2)).get?
      (1 + (natToStr n).length + 1) = some tag := by
    rw [show 1 + (natToStr n).length + 1 = (natToStr n).length + 1 + 1 by omega,
      List.get?_cons_succ, get_append_len _ _ 1]
    rfl
  rw [if_neg]
  · simp only [hgtag]
    rw [if_neg (by push_neg; intro h1; by_contra h2; rcases htag with h | h
          <;> simp_all)]
  · push_neg
    refine ⟨rfl, ?_, by rw [hdash], ?_⟩ <;>
      · simp only [List.length_cons, List.length_append]
        omega

/-- `L<numeral>-<tag>` with nothing after the tag (as in `L7-F`) is
rejected: the suffix numeral is missing. -/
lemma identifyL_tag_end (n : Nat) (tag : Char) (hn : n ≤ 2147483647) :
    identifyL ('L' :: (natToStr n ++ ['-', tag])) = .unknown := by
  by_cases htag : tag = 'F' ∨ tag = 'S'
  · rw [show ('L' :: (natToStr n ++ ['-', tag]))
        = ('L' :: (natToStr n ++ '-' :: tag :: [])) from rfl,
      identifyL_suffix_parse n tag [] hn htag]
    have hp : parse_id ('L' :: (natToStr n ++ '-' :: tag :: []))
        (1 + (natToStr n).length + 2) = none :=
      parse_id_eq_err (by rw [suffix_drop]; rfl)
    simp only [hp]
  · push_neg at htag
    exact identifyL_bad_tag n tag [] hn htag.1 htag.2

/-- A suffix whose numeral does not start with a digit (as in `L7-Fx`
or `L7-F-1`) is rejected, whatever the tag. -/
lemma identifyL_suffix_nondigit (n : Nat) (tag c2 : Char) (cs : List Char)
    (hn : n ≤ 2147483647) (hc2 : isDig c2 = false) :
    identifyL ('L' :: (natToStr n ++ '-' :: tag :: c2 :: cs)) = .unknown := by
  by_cases htag : tag = 'F' ∨ tag = 'S'
  · rw [identifyL_suffix_parse n tag (c2 :: cs) hn htag]
    have hp : parse_id ('L' :: (natToStr n ++ '-' :: tag :: c2 :: cs))
        (1 + (natToStr n).length + 2) = none :=
      parse_id_none_of_nondigit_head _ _ (by rw [suffix_drop]) hc2
    simp only [hp]
  · push_neg at htag
    exact identifyL_bad_tag n tag (c2 :: cs) hn htag.1 htag.2

/-- A suffix numeral with a leading zero and length greater than one (as
in `L7-F02`) is rejected, whatever the tag. -/
lemma identifyL_suffix_leading_zero (n : Nat) (tag d : Char)
    (rest : List Char) (hn : n ≤ 2147483647) (hd : isDig d = true) :
    identifyL ('L' :: (natToStr n ++ '-' :: tag :: '0' :: d :: rest))
      = .unknown := by
  by_cases htag : tag = 'F' ∨ tag = 'S'
  · rw [identifyL_suffix_parse n tag ('0' :: d :: rest) hn htag]
    have hp : parse_id ('L' :: (natToStr n ++ '-' :: tag :: '0' :: d :: rest))
        (1 + (natToStr n).length + 2) = none :=
      parse_id_leading_zero _ _ (by rw [suffix_drop]) hd
    simp only [hp]
  · push_neg at htag
    exact identifyL_bad_tag n tag ('0' :: d :: rest) hn htag.1 htag.2

/-- A suffix numeral past the 32-bit signed bound (as in
`L7-F2147483648`) is rejected, whatever the tag. -/
lemma identifyL_suffix_overflow (n : Nat) (tag : Char) (ds rest : List Char)
    (hn : n ≤ 2147483647) (hne : ds ≠ []) (hdig : ∀ x ∈ ds, isDig x = true)
    (hrest : noDigitHead rest = true) (hover : 2147483648 ≤ digitsVal ds) :
    identifyL ('L' :: (natToStr n ++ '-' :: tag :: (ds ++ rest)))
      = .unknown := by
  by_cases htag : tag = 'F' ∨ tag = 'S'
  · rw [identifyL_suffix_parse n tag (ds ++ rest) hn htag]
    have hp : parse_id ('L' :: (natToStr n ++ '-' :: tag :: (ds ++ rest)))
        (1 + (natToStr n).length + 2) = none :=
      parse_id_overflow _ _ (by rw [suffix_drop]) hne hdig hrest hover
    simp only [hp]
  · push_neg at htag
    exact identifyL_bad_tag n tag (ds ++ rest) hn htag.1 htag.2

/-- Forward direction of the `identify` characterization: any string not
rejected as `unknown` matches the identifier grammar. -/
lemma identifyL_ne_unknown {l : List Char}
    (h : identifyL l ≠ .unknown) : wellFormedId l := by
  by_cases hl : l.length < 2
  · exfalso
    apply h
    simp only [identifyL]
    rw [if_pos hl]
  cases l with
  | nil => exact absurd (by simp) hl
  | cons c cs =>
    simp only [identifyL, if_neg hl, List.head?_cons] at h
    cases hpf : prefixFind c with
    | none => exact absurd (by simp [hpf]) h
    | some k0 =>
      cases hp1 : parse_id (c :: cs) 1 with
      | none => exact absurd (by simp [hpf, hp1]) h
      | some pr =>
        obtain ⟨v, pos⟩ := pr
        simp only [hpf, hp1] at h
        obtain ⟨n, rfl, hn, hpos, hdrop, hnd⟩ := parse_id_some hp1
        have hcs : cs = natToStr n ++ (cs.dropWhile isDig) := by
          simpa using hdrop
        set tail1 := cs.dropWhile isDig with htail1
        have hnd1 : noDigitHead tail1 = true := by simpa using hnd
        by_cases hend : pos = (c :: cs).length
        · left
          have hlen : cs.length = (natToStr n).length + tail1.length := by
            conv_lhs => rw [hcs]
            simp
          have htl0 : tail1.length = 0 := by
            simp only [List.length_cons] at hend
            omega
          have htl : tail1 = [] := List.length_eq_zero.mp htl0
          refine ⟨c, k0, n, hpf, hn, ?_⟩
          rw [hcs, htl, List.append_nil]
        · rw [if_neg hend] at h
          by_cases hbad : k0 ≠ kindIndex .lexeme ∨ (c :: cs).length ≤ pos ∨
              (c :: cs).get? pos ≠ some '-' ∨ (c :: cs).length ≤ pos + 1
          · rw [if_pos hbad] at h
            exact absurd rfl h
          rw [if_neg hbad] at h
          push_neg at hbad
          obtain ⟨hk2, hposlt, hdash, hpos1lt⟩ := hbad
          have hcL : c = 'L' := by
            apply prefixFind_two
            rw [hpf, hk2]
            rfl
          have hgetpos : (c :: cs).get? pos = tail1.head? := by
            rw [hpos, show 1 + (natToStr n).length = (natToStr n).length + 1
              by omega, List.get?_cons_succ]
            conv_lhs => rw [hcs]
            rw [get_append_self]
            cases tail1 <;> rfl
          obtain ⟨t1, rest1, htl⟩ : ∃ t1 rest1, tail1 = t1 :: rest1 := by
            cases htl : tail1 with
            | nil =>
              rw [hgetpos, htl] at hdash
              simp at hdash
            | cons a b => exact ⟨a, b, rfl⟩
          have ht1 : t1 = '-' := by
            rw [hgetpos, htl] at hdash
            simpa using hdash
          subst ht1
          have hgetpos1 : (c :: cs).get? (pos + 1) = rest1.head? := by
            rw [hpos, show 1 + (natToStr n).length + 1
              = (natToStr n).length + 1 + 1 by omega, List.get?_cons_succ]
            conv_lhs => rw [hcs, htl]
            rw [get_append_len _ _ 1]
            cases rest1 <;> rfl
          obtain ⟨tag, rest2, hr1⟩ : ∃ tag rest2, rest1 = tag :: rest2 := by
            cases hr1 : rest1 with
            | nil =>
              rw [hgetpos1, hr1] at h
              simp only [List.head?_nil] at h
              exact absurd rfl h
            | cons a b => exact ⟨a, b, rfl⟩
          rw [hgetpos1, hr1] at h
          simp only [List.head?_cons] at h
          by_cases htag : tag ≠ 'F' ∧ tag ≠ 'S'
          · rw [if_pos htag] at h
            exact absurd rfl h
          rw [if_neg htag] at h
          push_neg at htag
          cases hp2 : parse_id (c :: cs) (pos + 2) with
          | none => simp only [hp2] at h; exact absurd rfl h
          | some pr2 =>
            obtain ⟨v2, pos2⟩ := pr2
            simp only [hp2] at h
            obtain ⟨m, rfl, hm, hpos2, hdrop2, hnd2⟩ := parse_id_some hp2
            have hdropr : (c :: cs).drop (pos + 2) = rest2 := by
              rw [hpos, show 1 + (natToStr n).length + 2
                = ((natToStr n).length + 2) + 1 by omega, List.drop_succ_cons]
              conv_lhs => rw [hcs, htl, hr1]
              rw [drop_append_len _ _ 2]
              rfl
            rw [hdropr] at hdrop2 hnd2
            set tail2 := rest2.dropWhile isDig with htail2
            by_cases hend2 : pos2 ≠ (c :: cs).length
            · rw [if_pos hend2] at h
              exact absurd rfl h
            push_neg at hend2
            have hlencs : cs.length = (natToStr n).length + 1 + 1
                + rest2.length := by
              conv_lhs => rw [hcs, htl, hr1]
              simp only [List.length_append, List.length_cons]
              omega
            have hlenr2 : rest2.length = (natToStr m).length + tail2.length := by
              conv_lhs => rw [hdrop2]
              simp
            have htl20 : tail2.length = 0 := by
              simp only [List.length_cons] at hend2
              omega
            have htl2 : tail2 = [] := List.length_eq_zero.mp htl20
            right
            refine ⟨n, m, tag, hn, hm, ?_, ?_⟩
            · by_cases hf : tag = 'F'
              · exact Or.inl hf
              · exact Or.inr (htag hf)
            · rw [hcL, hcs, htl, hr1, hdrop2, htl2, List.append_nil]

/-! ## Lemma zone: container models and group selection -/

lemma mem_setInsert_self (s : StrSet) (x : String) : x ∈ setInsert s x := by
  by_cases h : x ∈ s <;> simp [setInsert, h]

lemma setInsert_eq_of_mem {s : StrSet} {x : String} (h : x ∈ s) :
    setInsert s x = s := if_pos h

lemma mapFind?_mapSet_self {a : Type} (m : SMap a) (k : String) (v : a) :
    mapFind? (mapSet m k v) k = some v := by
  induction m with
  | nil => simp [mapSet, mapFind?]
  | cons p rest ih =>
    obtain ⟨k', v'⟩ := p
    by_cases h : k' = k
    · simp [mapSet, mapFind?, h]
    · simp [mapSet, mapFind?, h, ih]

lemma mapSet_mapSet_self {a : Type} (m : SMap a) (k : String) (v w : a) :
    mapSet (mapSet m k v) k w = mapSet m k w := by
  induction m with
  | nil => simp [mapSet]
  | cons p rest ih =>
    obtain ⟨k', v'⟩ := p
    by_cases h : k' = k
    · simp [mapSet, h]
    · simp [mapSet, h, ih]

lemma mapContains_mapSet {a : Type} (m : SMap a) (k : String) (v : a) :
    mapContains (mapSet m k v) k = true := by
  simp [mapContains, mapFind?_mapSet_self]

lemma mapContains_append_self {a : Type} (m : SMap a) (k : String) (v : a) :
    mapContains (m ++ [(k, v)]) k = true := by
  induction m with
  | nil => simp [mapContains, mapFind?]
  | cons p rest ih =>
    obtain ⟨k', v'⟩ := p
    by_cases h : k' = k
    · simp [mapContains, mapFind?, h]
    · simpa [mapContains, mapFind?, h] using ih

lemma get_set_self {a : Type} (l : List a) (i : Nat) (x : a)
    (h : i < l.length) : (l.set i x).get? i = some x := by
  rw [List.get?_set_eq]
  rw [List.get?_eq_get (by simpa using h)]
  simp

lemma set_set_self {a : Type} (l : List a) (i : Nat) (x y : a) :
    (l.set i x).set i y = l.set i y := List.set_set x y l i

lemma freshLoop_ne {supply : List String} {groups : SMap StrSet}
    {f : String} {r : List String}
    (h : freshLoop supply groups = some (f, r)) : f ≠ "" := by
  induction supply generalizing r with
  | nil => exact absurd h (by simp [freshLoop])
  | cons n rest ih =>
    simp only [freshLoop] at h
    split at h
    · exact ih h
    · have hf : f = "g_" ++ n := by
        cases h
        rfl
      intro hemp
      rw [hf] at hemp
      have hdata := congrArg String.data hemp
      rw [String.data_append] at hdata
      have := List.append_eq_nil.mp hdata
      exact absurd this.1 (by decide)

/-- `select_group` leaves a non-empty current group name. -/
lemma select_group_current_ne {name : String} {s sA : arachneState}
    (h : select_group name s = .ok sA) : sA.current_group ≠ "" := by
  by_cases hname : name = ""
  · subst hname
    simp only [select_group, if_pos rfl] at h
    by_cases hcur : s.current_group = ""
    · rw [if_pos hcur] at h
      simp only [new_group, if_pos rfl] at h
      cases hfresh : freshLoop s.rng_names s.groups with
      | none => rw [hfresh] at h; exact absurd h (by simp [Except.map])
      | some p =>
        obtain ⟨fresh, restNames⟩ := p
        rw [hfresh] at h
        simp only [Except.map] at h
        cases h
        exact freshLoop_ne hfresh
    · rw [if_neg hcur] at h
      cases h
      exact hcur
  · simp only [select_group, if_neg hname, new_group, if_neg hname] at h
    by_cases hc : mapContains s.groups name = true
    · rw [if_pos hc] at h
      simp only [Except.map] at h
      cases h
      exact hname
    · rw [if_neg hc] at h
      simp only [Except.map] at h
      cases h
      exact hname

/-- What `select_group` guarantees about the selected state. -/
lemma select_group_ok {name : String} {s sA : arachneState}
    (h : select_group name s = .ok sA) (hname : name ≠ "") :
    sA.current_group = name ∧ mapContains sA.groups name = true ∧
      sA.main_batches = s.main_batches ∧ sA.extra_batches = s.extra_batches ∧
      sA.candidates = s.candidates := by
  simp only [select_group, if_neg hname, new_group, if_neg hname] at h
  by_cases hc : mapContains s.groups name = true
  · rw [if_pos hc] at h
    simp only [Except.map] at h
    cases h
    exact ⟨rfl, hc, rfl, rfl, rfl⟩
  · rw [if_neg hc] at h
    simp only [Except.map] at h
    cases h
    exact ⟨rfl, mapContains_append_self _ _ _, rfl, rfl, rfl⟩

/-- `select_group` with an empty name. -/
lemma select_group_empty_ok {s sA : arachneState}
    (h : select_group "" s = .ok sA) (hcur : s.current_group ≠ "") :
    sA = s := by
  simp only [select_group, if_pos rfl, if_neg hcur] at h
  cases h
  rfl

/-- Re-running `select_group` on a state that already satisfies its
postcondition is the identity. -/
lemma select_group_rerun (name : String) (t : arachneState)
    (h1 : name ≠ "" → t.current_group = name ∧ mapContains t.groups name = true)
    (h2 : name = "" → t.current_group ≠ "") :
    select_group name t = .ok t := by
  by_cases hname : name = ""
  · subst hname
    unfold select_group
    rw [if_pos rfl, if_neg (h2 rfl)]
  · obtain ⟨hcur, hcont⟩ := h1 hname
    simp only [select_group, if_neg hname, new_group, if_neg hname,
      if_pos hcont, Except.map]
    rw [← hcur]

/-- `select_group` only changes the group table, the current-group name
and the name supply. -/
lemma select_group_preserves {name : String} {s sA : arachneState}
    (h : select_group name s = .ok sA) :
    sA.main_batches = s.main_batches ∧ sA.extra_batches = s.extra_batches ∧
      sA.candidates = s.candidates := by
  by_cases hname : name = ""
  · subst hname
    simp only [select_group, if_pos rfl] at h
    by_cases hcur : s.current_group = ""
    · rw [if_pos hcur] at h
      simp only [new_group, if_pos rfl] at h
      cases hfresh : freshLoop s.rng_names s.groups with
      | none => rw [hfresh] at h; exact absurd h (by simp [Except.map])
      | some p =>
        obtain ⟨fresh, restNames⟩ := p
        rw [hfresh] at h
        simp only [Except.map] at h
        cases h
        exact ⟨rfl, rfl, rfl⟩
    · rw [if_neg hcur] at h
      cases h
      exact ⟨rfl, rfl, rfl⟩
  · exact (select_group_ok h hname).2.2

lemma enqueue_true (id : String) (kind : entity_kind) (i : Bool) :
    enqueue id kind i = true := rfl

/-- Re-running the same `add_entity` call is the identity: the group, the
queue and the counters deduplicate, so the reported size and the whole
state are unchanged. -/
lemma add_entity_rerun {id name : String} {s s1 : arachneState}
    {net : NetOracle} {n1 : Nat}
    (h : add_entity id false name s net = .ok (n1, s1)) :
    add_entity id false name s1 net = .ok (n1, s1) := by
  unfold add_entity at h ⊢
  cases hroot : entity_root id with
  | error u => rw [hroot] at h; exact absurd h (by simp)
  | ok canonical =>
    simp only [hroot] at h ⊢
    cases hsel : select_group name s with
    | error u => simp only [hsel] at h; exact absurd h (by simp)
    | ok sA =>
      simp only [hsel, enqueue_true, Bool.or_true, if_true] at h
      cases hget : sA.main_batches.get?
          (kindIndex (identify canonical)) with
      | none => simp only [hget] at h; exact absurd h (by simp)
      | some pool =>
        simp only [hget] at h
        have hlt : kindIndex (identify canonical) < sA.main_batches.length := by
          by_contra hge
          rw [List.get?_eq_none.mpr (by omega)] at hget
          exact Option.noConfusion hget
        have hmem : id ∈ setInsert (mapGetD sA.groups sA.current_group []) id :=
          mem_setInsert_self _ _
        have hmemc : canonical ∈ setInsert pool canonical :=
          mem_setInsert_self _ _
        -- extract what run 1 produced
        obtain ⟨hn, hs, hflok⟩ :
            n1 = (setInsert (mapGetD sA.groups sA.current_group []) id).length ∧
            s1 = { main_batches := sA.main_batches.set
                     (kindIndex (identify canonical)) (setInsert pool canonical)
                   extra_batches := sA.extra_batches
                   groups := mapSet sA.groups sA.current_group
                     (setInsert (mapGetD sA.groups sA.current_group []) id)
                   candidates := sA.candidates
                   current_group := sA.current_group
                   rng_names := sA.rng_names } ∧
            (batch_threshold ≤ (setInsert pool canonical).length →
              ∃ val, flush (identify canonical)
                { main_batches := sA.main_batches.set
                    (kindIndex (identify canonical)) (setInsert pool canonical)
                  extra_batches := sA.extra_batches
                  groups := mapSet sA.groups sA.current_group
                    (setInsert (mapGetD sA.groups sA.current_group []) id)
                  candidates := sA.candidates
                  current_group := sA.current_group
                  rng_names := sA.rng_names } net = .ok val) := by
          by_cases hth : batch_threshold ≤ (setInsert pool canonical).length
          · rw [if_pos hth] at h
            split at h
            · exact absurd h (by simp)
            · rename_i val hfl
              have hpr := Except.ok.inj h
              obtain ⟨hn, hs⟩ : _ ∧ _ := Prod.mk.injEq _ _ _ _ ▸ hpr
              exact ⟨hn.symm, hs.symm, fun _ => ⟨val, hfl⟩⟩
          · rw [if_neg hth] at h
            have hpr := Except.ok.inj h
            obtain ⟨hn, hs⟩ : _ ∧ _ := Prod.mk.injEq _ _ _ _ ▸ hpr
            exact ⟨hn.symm, hs.symm, fun hc => absurd hc hth⟩
        subst hn
        subst hs
        -- run 2: selecting the same group is the identity
        have hrerun := select_group_rerun name
          { main_batches := sA.main_batches.set
              (kindIndex (identify canonical)) (setInsert pool canonical)
            extra_batches := sA.extra_batches
            groups := mapSet sA.groups sA.current_group
              (setInsert (mapGetD sA.groups sA.current_group []) id)
            candidates := sA.candidates
            current_group := sA.current_group
            rng_names := sA.rng_names }
          (fun hname => by
            obtain ⟨hc1, hc2, -⟩ := select_group_ok hsel hname
            constructor
            · exact hc1
            · show mapContains (mapSet sA.groups sA.current_group _) name = true
              rw [hc1]
              exact mapContains_mapSet _ _ _)
          (fun _ => by
            show sA.current_group ≠ ""
            exact select_group_current_ne hsel)
        simp only [hrerun, enqueue_true, Bool.or_true, if_true]
        have hget2 : (sA.main_batches.set (kindIndex (identify canonical))
            (setInsert pool canonical)).get? (kindIndex (identify canonical))
            = some (setInsert pool canonical) :=
          get_set_self sA.main_batches (kindIndex (identify canonical))
            (setInsert pool canonical) hlt
        simp only [hget2]
        have hgroups2 : mapGetD (mapSet sA.groups sA.current_group
            (setInsert (mapGetD sA.groups sA.current_group []) id))
            sA.current_group []
            = setInsert (mapGetD sA.groups sA.current_group []) id := by
          simp [mapGetD, mapFind?_mapSet_self]
        simp only [hgroups2]
        simp only [setInsert_eq_of_mem hmemc, setInsert_eq_of_mem hmem]
        simp only [mapSet_mapSet_self, set_set_self]
        by_cases hth : batch_threshold ≤ (setInsert pool canonical).length
        · rw [if_pos hth]
          obtain ⟨val, hfl⟩ := hflok hth
          simp only [hfl]
        · rw [if_neg hth]

/-! ## Claim theorems -/

/-- C1 (code bug): `flush(kind)` is claimed to hand the queue to the
courier, clear the sent identifiers and return true on a populated
queue.  In the code (src/src/arachne.cpp:99-105) `fetch_json` only reads
the batch, nothing ever erases the sent identifiers, and the returned
comparison `size > batch.size()` is between two equal sizes: on a queue
of three items the call leaves the whole state unchanged and returns
false (the empty-queue half, returning false, does hold). -/
theorem flush_clears_nothing_and_returns_false :
    flush .item threeItemsState netAllOk = .ok (false, threeItemsState) ∧
    queue_size .item threeItemsState = 3 ∧
    flush .item (initState []) netAllOk = .ok (false, initState []) := by
  decide

/-- C2 (code bug): `flush(any)` is claimed to advance a round-robin
cursor and flush one non-empty kind per call.  No cursor exists in the
class, and `main_batches[static_cast<size_t>(any)]` indexes position 7
of a 7-element `std::array` (src/include/arachne.hpp:32-33,270):
undefined behaviour, modelled as an error, for every state whose batch
array has its declared length. -/
theorem flush_any_out_of_bounds :
    (∀ (s : arachneState) (net : NetOracle),
      s.main_batches.length = batched_kind_count →
      flush .any s net = .error ()) ∧
    flush .any threeItemsState netAllOk = .error () := by
  constructor
  · intro s net hlen
    unfold flush
    rw [List.get?_eq_none.mpr (by rw [hlen]; decide)]
  · decide

/-- Witness for the out-of-bounds `flush(any)` access at a concrete
populated state. -/
theorem flush_any_out_of_bounds_witness :
    flush .any threeItemsState netAllOk = .error () :=
  flush_any_out_of_bounds.1 threeItemsState netAllOk (by decide)

/-- C3 (code bug): 49 touches of `Q42` leave every queue unchanged and
the 50th (threshold) touch promotes the root into the extra queue and
returns true, as claimed; but the 51st call again returns true (the
claim, the header documentation and the `Touch.PromotesOnThreshold`
test say false) and the counter advances to 51, because
`touch_entity` (src/src/arachne.cpp:224-233) never stops counting a
queued identifier. -/
theorem touch_threshold_behaviour :
    ((touchQ42 49).map fun p => (p.1, p.2.extra_batches.map List.length))
      = .ok (false, [0, 0, 0, 0, 0, 0, 0]) ∧
    ((touchQ42 50).map fun p => (p.1, p.2.extra_batches.map List.length,
        (p.2.extra_batches.get? 0).getD []))
      = .ok (true, [1, 0, 0, 0, 0, 0, 0], ["Q42"]) ∧
    ((touchQ42 51).map fun p => (p.1, mapGetD p.2.candidates "Q42" 0,
        p.2.extra_batches.map List.length))
      = .ok (true, 51, [1, 0, 0, 0, 0, 0, 0]) := by
  decide

/-- C4: `identify` rejects every listed shape of invalid identifier:
the empty string; an unknown prefix letter; a prefix with no numeral
(in particular any second character that is not a digit, covering
`Q`, `Q-1`, `Qx1`, signs and whitespace); a leading-zero numeral longer
than one digit and a numeral past the 32-bit signed bound, both for the
main numeral and for the `-F`/`-S` suffix numeral (`L7-F02`,
`L7-F2147483648`), with the boundary pair checked concretely; a `-X`
suffix with `X` outside `{F, S}`; a suffix or trailing characters on a
non-lexeme numeral; non-suffix trailing characters on a lexeme numeral,
including a bare trailing dash (`L1-`) and a tag with no numeral
(`L7-F`); and trailing characters after a complete form/sense suffix. -/
theorem identify_rejects_invalid :
    identify "" = .unknown ∧
    (∀ (c : Char) (cs : List Char), c ∉ prefixes →
      identifyL (c :: cs) = .unknown) ∧
    (∀ (c : Char) (cs : List Char), (∀ d ∈ cs, isDig d = false) →
      identifyL (c :: cs) = .unknown) ∧
    (∀ (c d : Char) (rest : List Char), isDig d = true →
      identifyL (c :: '0' :: d :: rest) = .unknown) ∧
    (∀ (c : Char) (ds rest : List Char), ds ≠ [] →
      (∀ x ∈ ds, isDig x = true) → noDigitHead rest = true →
      2147483648 ≤ digitsVal ds → identifyL (c :: (ds ++ rest)) = .unknown) ∧
    identify "Q2147483647" = .item ∧
    identify "Q2147483648" = .unknown ∧
    (∀ (n : Nat) (tag : Char) (rest2 : List Char), n ≤ 2147483647 →
      tag ≠ 'F' → tag ≠ 'S' →
      identifyL ('L' :: (natToStr n ++ '-' :: tag :: rest2)) = .unknown) ∧
    (∀ (p : Char) (k n : Nat) (rest : List Char), prefixFind p = some k →
      k ≠ 2 → n ≤ 2147483647 → noDigitHead rest = true → rest ≠ [] →
      identifyL (p :: (natToStr n ++ rest)) = .unknown) ∧
    (∀ (n : Nat) (c : Char) (rest : List Char), n ≤ 2147483647 →
      isDig c = false → c ≠ '-' →
      identifyL ('L' :: (natToStr n ++ c :: rest)) = .unknown) ∧
    (∀ (n m : Nat) (tag c : Char) (rest2 : List Char), n ≤ 2147483647 →
      m ≤ 2147483647 → (tag = 'F' ∨ tag = 'S') → isDig c = false →
      identifyL ('L' :: (natToStr n ++ '-' :: tag ::
        (natToStr m ++ c :: rest2))) = .unknown) ∧
    (∀ (c c2 : Char) (cs : List Char), isDig c2 = false →
      identifyL (c :: c2 :: cs) = .unknown) ∧
    (∀ n : Nat, n ≤ 2147483647 →
      identifyL ('L' :: (natToStr n ++ ['-'])) = .unknown) ∧
    (∀ (n : Nat) (tag : Char), n ≤ 2147483647 →
      identifyL ('L' :: (natToStr n ++ ['-', tag])) = .unknown) ∧
    (∀ (n : Nat) (tag c2 : Char) (cs : List Char), n ≤ 2147483647 →
      isDig c2 = false →
      identifyL ('L' :: (natToStr n ++ '-' :: tag :: c2 :: cs))
        = .unknown) ∧
    (∀ (n : Nat) (tag d : Char) (rest : List Char), n ≤ 2147483647 →
      isDig d = true →
      identifyL ('L' :: (natToStr n ++ '-' :: tag :: '0' :: d :: rest))
        = .unknown) ∧
    (∀ (n : Nat) (tag : Char) (ds rest : List Char), n ≤ 2147483647 →
      ds ≠ [] → (∀ x ∈ ds, isDig x = true) → noDigitHead rest = true →
      2147483648 ≤ digitsVal ds →
      identifyL ('L' :: (natToStr n ++ '-' :: tag :: (ds ++ rest)))
        = .unknown) :=
  ⟨by decide, identifyL_unknown_prefix, identifyL_no_numeral,
    identifyL_leading_zero, identifyL_overflow, by decide, by decide,
    identifyL_bad_tag, identifyL_nonlexeme_tail, identifyL_lexeme_bad_tail,
    identifyL_suffix_trailing, identifyL_nondigit_after_prefix,
    identifyL_dash_end, identifyL_tag_end, identifyL_suffix_nondigit,
    identifyL_suffix_leading_zero, identifyL_suffix_overflow⟩

/-- Witness: the trailing-dash rejection applied to the concrete id
`L1-` and the bad-suffix rejection applied to `L7-T`. -/
theorem identify_rejects_invalid_witness :
    identifyL ('L' :: (natToStr 1 ++ ['-'])) = .unknown ∧
    identifyL ('L' :: (natToStr 7 ++ '-' :: 'T' :: [])) = .unknown :=
  ⟨identify_rejects_invalid.2.2.2.2.2.2.2.2.2.2.2.2.1 1 (by decide),
    identify_rejects_invalid.2.2.2.2.2.2.2.1 7 'T' [] (by decide) (by decide)
      (by decide)⟩

/-- C5: for every 32-bit non-negative id and concrete kind,
`identify(normalize(id, kind))` recovers the simple kind, forms and
senses collapsing to lexeme. -/
theorem normalize_identify_round_trip :
    ∀ (n : Nat) (kind : entity_kind), n ≤ 2147483647 →
      kind ≠ .any → kind ≠ .unknown →
      ∃ s : String, normalize (n : Int) kind = .ok s ∧
        identify s = simple_kind kind := by
  intro n kind hn hany hunk
  have hneg : ¬ ((n : Int) < 0) := by omega
  cases kind with
  | any => exact absurd rfl hany
  | unknown => exact absurd rfl hunk
  | item =>
    refine ⟨String.mk ('Q' :: natToStr n), ?_, ?_⟩
    · unfold normalize
      rw [if_neg hneg]
      rfl
    · exact identifyL_prefix_num 'Q' 0 n (by decide) hn
  | property =>
    refine ⟨String.mk ('P' :: natToStr n), ?_, ?_⟩
    · unfold normalize
      rw [if_neg hneg]
      rfl
    · exact identifyL_prefix_num 'P' 1 n (by decide) hn
  | lexeme =>
    refine ⟨String.mk ('L' :: natToStr n), ?_, ?_⟩
    · unfold normalize
      rw [if_neg hneg]
      rfl
    · exact identifyL_prefix_num 'L' 2 n (by decide) hn
  | mediainfo =>
    refine ⟨String.mk ('M' :: natToStr n), ?_, ?_⟩
    · unfold normalize
      rw [if_neg hneg]
      rfl
    · exact identifyL_prefix_num 'M' 3 n (by decide) hn
  | entity_schema =>
    refine ⟨String.mk ('E' :: natToStr n), ?_, ?_⟩
    · unfold normalize
      rw [if_neg hneg]
      rfl
    · exact identifyL_prefix_num 'E' 4 n (by decide) hn
  | form =>
    refine ⟨String.mk ('L' :: natToStr n), ?_, ?_⟩
    · unfold normalize
      rw [if_neg hneg]
      rfl
    · exact identifyL_prefix_num 'L' 2 n (by decide) hn
  | sense =>
    refine ⟨String.mk ('L' :: natToStr n), ?_, ?_⟩
    · unfold normalize
      rw [if_neg hneg]
      rfl
    · exact identifyL_prefix_num 'L' 2 n (by decide) hn

/-- Witness: the round trip at `(7, form)` yields `L7`, identified as a
lexeme. -/
theorem normalize_identify_round_trip_witness :
    ∃ s : String, normalize (7 : Int) .form = .ok s ∧
      identify s = simple_kind .form :=
  normalize_identify_round_trip 7 .form (by decide) (by decide) (by decide)

/-- C6: re-adding the same identifier to the same group returns the same
size and leaves the entire manager state unchanged; and in the concrete
scenario the two form/sense ids `L77-F2`, `L77-S3` grow the group from 1
to 2 to 3 while the lexeme queue keeps the single shared root `L77`. -/
theorem add_entity_dedup :
    (∀ (id name : String) (s s1 : arachneState) (net : NetOracle) (n1 : Nat),
      add_entity id false name s net = .ok (n1, s1) →
      add_entity id false name s1 net = .ok (n1, s1)) ∧
    (groupScenario 1).map (fun p => (p.1, queue_size .item p.2))
      = .ok (1, 1) ∧
    (groupScenario 2).map (fun p => (p.1, queue_size .item p.2))
      = .ok (1, 1) ∧
    (groupScenario 3).map (fun p => (p.1, queue_size .lexeme p.2,
        (p.2.main_batches.get? (kindIndex .lexeme)).getD []))
      = .ok (2, 1, ["L77"]) ∧
    (groupScenario 4).map (fun p => (p.1, queue_size .lexeme p.2,
        (p.2.main_batches.get? (kindIndex .lexeme)).getD []))
      = .ok (3, 1, ["L77"]) :=
  ⟨fun _ _ _ _ _ _ h => add_entity_rerun h,
    by decide, by decide, by decide, by decide⟩

/-- Witness: the duplicate-add identity applied to the concrete first
step of the scenario. -/
theorem add_entity_dedup_witness :
    add_entity "Q1" false "g1"
      { main_batches := [["Q1"], [], [], [], [], [], []]
        extra_batches := [[], [], [], [], [], [], []]
        groups := [("g1", ["Q1"])]
        candidates := []
        current_group := "g1"
        rng_names := [] } netAllOk
      = .ok (1, { main_batches := [["Q1"], [], [], [], [], [], []]
                  extra_batches := [[], [], [], [], [], [], []]
                  groups := [("g1", ["Q1"])]
                  candidates := []
                  current_group := "g1"
                  rng_names := [] }) :=
  add_entity_dedup.1 "Q1" "g1" (initState []) _ netAllOk 1 (by decide)

/-- C7: with the default configuration (base 200 ms, cap 3000 ms, 3
retries), three 503 responses followed by a 200 give exactly 4 physical
attempts, 3 retry-counter increments and the final 200 response,
whatever the jitter draws; and an attempt is classified retryable
exactly on a transport error or a status in `{408, 429} ∪ [500, 600)`. -/
theorem retry_backoff_scenario :
    (∀ draws : Nat → Nat,
      (http_get 1 seq503 draws ⟨0, 0, 0⟩).map
        (fun p => (p.1, p.2.requests, p.2.retries))
        = .ok (⟨true, 200, none⟩, 4, 3)) ∧
    (∀ (r : http_response) (net_ok : Bool),
      status_retry r net_ok = true ↔
        (net_ok = false ∨ r.status = 408 ∨ r.status = 429 ∨
          (500 ≤ r.status ∧ r.status < 600))) := by
  constructor
  · intro draws
    rfl
  · intro r net_ok
    cases net_ok <;> simp [status_retry] <;> tauto

/-- C8 (code bug): `http_client::apply_server_retry_hint`
(src/src/http_client.cpp:360-372) raises the sleep to
`max(backoff, hint)` as the claim states, but the legacy courier
transport `pheidippides::get_with_retries` applies the parsed
`Retry-After` with `std::min` (src/src/pheidippides.cpp:233): with a
200 ms jittered backoff and a 5000 ms hint it sleeps only 200 ms,
below the hint. -/
theorem retry_hint_lowered_not_raised :
    phe_retry_sleep 200 3000 1 0 (some 5000) = 200 ∧
    200 < 5000 ∧
    (∀ sleep sec : Nat,
      apply_server_retry_hint sleep (some sec) = max sleep (sec * 1000) ∧
      sec * 1000 ≤ apply_server_retry_hint sleep (some sec)) := by
  refine ⟨by decide, by decide, fun sleep sec => ⟨rfl, ?_⟩⟩
  simp only [apply_server_retry_hint]
  exact le_max_right _ _

/-- C9 counterexample: an identifier whose detection fails (`X9`, kind
`unknown` — which does not match the requested kind `item`) is not
silently dropped: `fetch_json` raises `invalid_argument` for it
(src/src/pheidippides.cpp:59-63) even though the rest of the batch is
valid and the network is healthy; and a fetch with requested kind
`lexeme` does not drop or proceed at all — it throws
"unsupported entity kind" up front (src/src/pheidippides.cpp:50-53). -/
theorem fetch_unknown_id_raises :
    identify "X9" = .unknown ∧
    fetch_json ["X9", "Q1"] .item netAllOk = .error () ∧
    fetch_json ["L1", "Q1"] .lexeme netAllOk = .error () := by
  decide

/-- C9 (amended): `fetch_json` only serves the requested kinds `item`,
`property` and `any`.  For `item`/`property` over a batch whose
identifiers all parse, every identifier of a different (known) detected
kind is silently dropped and the fetch proceeds over exactly the
matching identifiers; a non-empty fetch with any other concrete
requested kind throws `invalid_argument` before any filtering; for
`any` no identifier is dropped; identifiers that fail detection raise
an error (see the counterexample). -/
theorem fetch_filter_drops_mismatched :
    (∀ (batch : List String) (kind : entity_kind),
      (kind = .item ∨ kind = .property) →
      (∀ id ∈ batch, identify id ≠ .unknown) →
      fetchFilter batch kind
        = .ok (batch.filter (fun id => identify id = kind)) ∧
      (∀ net : NetOracle,
        fetch_json batch kind net =
          if (batch.filter (fun id => identify id = kind)).isEmpty then .ok ()
          else runChunks (chunksOf batch_threshold
            (batch.filter (fun id => identify id = kind))) net 0)) ∧
    (∀ (batch : List String) (kind : entity_kind) (net : NetOracle),
      kind ≠ .item → kind ≠ .property → kind ≠ .any → batch ≠ [] →
      fetch_json batch kind net = .error ()) ∧
    (∀ batch : List String, (∀ id ∈ batch, identify id ≠ .unknown) →
      fetchFilter batch .any = .ok batch) := by
  refine ⟨?_, ?_, ?_⟩
  · intro batch kind hkind hvalid
    have hany : kind ≠ .any := by rcases hkind with h | h <;> subst h <;> decide
    have hfilter : ∀ b : List String, (∀ id ∈ b, identify id ≠ .unknown) →
        fetchFilter b kind = .ok (b.filter (fun id => identify id = kind)) := by
      intro b
      induction b with
      | nil => intro _; rfl
      | cons id rest ih =>
        intro hv
        have hid : identify id ≠ .unknown := hv id (by simp)
        have hrest : ∀ x ∈ rest, identify x ≠ .unknown :=
          fun x hx => hv x (by simp [hx])
        unfold fetchFilter
        rw [if_neg hid]
        by_cases hmatch : identify id = kind
        · rw [if_neg (fun hcon => hcon.2 hmatch), ih hrest]
          simp [List.filter_cons, hmatch]
        · rw [if_pos ⟨hany, hmatch⟩, ih hrest]
          simp [List.filter_cons, hmatch]
    refine ⟨hfilter batch hvalid, ?_⟩
    intro net
    unfold fetch_json
    by_cases hemp : batch.isEmpty
    · rw [if_pos hemp]
      have hb : batch = [] := List.isEmpty_iff.mp hemp
      subst hb
      rfl
    · rw [if_neg hemp,
        if_neg (by rcases hkind with h | h <;> subst h <;> decide)]
      simp only [hfilter batch hvalid]
  · intro batch kind net h1 h2 h3 hne
    unfold fetch_json
    rw [if_neg (by simpa [List.isEmpty_iff] using hne), if_pos ⟨h1, h2, h3⟩]
  · intro batch
    induction batch with
    | nil => intro _; rfl
    | cons id rest ih =>
      intro hv
      have hid : identify id ≠ .unknown := hv id (by simp)
      have hrest : ∀ x ∈ rest, identify x ≠ .unknown :=
        fun x hx => hv x (by simp [hx])
      unfold fetchFilter
      rw [if_neg hid,
        if_neg (fun hcon => hcon.1 rfl), ih hrest]

/-- Witness: the filter over `[Q1, P2]` for kind item keeps exactly
`Q1`, silently and without error. -/
theorem fetch_filter_drops_mismatched_witness :
    fetchFilter ["Q1", "P2"] .item
      = .ok (["Q1", "P2"].filter (fun id => identify id = .item)) :=
  (fetch_filter_drops_mismatched.1 ["Q1", "P2"] .item (Or.inl rfl)
    (by decide)).1

/-- C10: `identify` is total — the embedded function returns a kind for
every string (the `catch (...)` in `parse_id` converts every `stoi`
failure into a parse failure rather than an escaping exception), and any
string on which it does not return `unknown` matches the identifier
grammar, so invalid input yields `unknown` rather than an error. -/
theorem identify_total :
    ∀ s : String, ∃ k : entity_kind, identify s = k ∧
      (k = .unknown ∨ wellFormedId s.data) := by
  intro s
  refine ⟨identify s, rfl, ?_⟩
  by_cases h : identify s = .unknown
  · exact Or.inl h
  · exact Or.inr (identifyL_ne_unknown h)

end Arachne
